import Mathlib

/-!
# Verification of the citeformat reference-resolution pipeline

Shallow embedding of `citeformat.py` / `citeformat_app.py`: the input
classifier (`detect_input_type`), the author-matching and highlight engine
(`_author_matches_query`, `_apply_highlight`), the citation formatters
(`fmt_apa`, `fmt_vancouver`, `fmt_ieee`, `fmt_ama`), the HTTP retry loop
(`_get`), the fuzzy-search error absorption (`search_crossref` /
`resolve_input`), and the ordinal bookkeeping of the CLI and app
processing loops.

Strings are modelled as `List Char`; all character classification is done
on ASCII code points (`Char.toNat`), matching the ASCII-only regular
expressions and `str` methods the source uses.
-/

set_option autoImplicit false

namespace Citeformat

/-! ## Basic character and string helpers (ASCII semantics) -/

/-- Python whitespace for `str.strip()` / `str.split()` (ASCII subset). -/
def pyIsSpace (c : Char) : Bool :=
  c.toNat = 32 || c.toNat = 9 || c.toNat = 10 || c.toNat = 13 ||
  c.toNat = 11 || c.toNat = 12

/-- The regex class `[A-Za-z]`. -/
def isAsciiLetter (c : Char) : Bool :=
  (65 ≤ c.toNat && c.toNat ≤ 90) || (97 ≤ c.toNat && c.toNat ≤ 122)

/-- The regex class `\d`. -/
def isDigitCh (c : Char) : Bool :=
  48 ≤ c.toNat && c.toNat ≤ 57

/-- The regex class `\w` = `[A-Za-z0-9_]`. -/
def isWordCh (c : Char) : Bool :=
  isAsciiLetter c || isDigitCh c || c.toNat = 95

/-- ASCII lowercase code point of a character (Python `str.lower` on the
ASCII range): `A`–`Z` shift by 32, everything else is unchanged.  We work
with the code point (`Nat`) so that case-insensitive comparison never has
to rebuild a `Char`. -/
def lowN (c : Char) : Nat :=
  if 65 ≤ c.toNat && c.toNat ≤ 90 then c.toNat + 32 else c.toNat

/-- Lowercased code-point image of a string (used for all the
case-insensitive comparisons in the source). -/
def lowNs (s : List Char) : List Nat := s.map lowN

/-- `str.strip()` (leading side). -/
def dropSpaces (s : List Char) : List Char := s.dropWhile pyIsSpace

/-- `str.strip()`: trim ASCII whitespace from both ends. -/
def pyStrip (s : List Char) : List Char :=
  ((dropSpaces s).reverse.dropWhile pyIsSpace).reverse

/-- `str.strip(chars)`: trim any of the given characters from both ends. -/
def pyStripChars (bad : List Char) (s : List Char) : List Char :=
  (((s.dropWhile (bad.contains ·)).reverse.dropWhile (bad.contains ·))).reverse

/-- `leads pat s`: `pat` is a leading run of `s` (case-sensitive,
compared by code point). -/
def leads : List Char → List Char → Bool
  | [], _ => true
  | _ :: _, [] => false
  | p :: ps, c :: cs => (p.toNat == c.toNat) && leads ps cs

/-- Case-insensitive version of `leads` (regex `re.IGNORECASE` on a
literal pattern). -/
def ciLeads : List Char → List Char → Bool
  | [], _ => true
  | _ :: _, [] => false
  | p :: ps, c :: cs => (lowN p == lowN c) && ciLeads ps cs

/-- Python `pat in s` (substring test, case-sensitive). -/
def containsSub (pat : List Char) : List Char → Bool
  | [] => leads pat []
  | c :: cs => leads pat (c :: cs) || containsSub pat cs

/-- `str.split()` with no argument: split on whitespace runs, dropping
empty pieces.  `acc` holds the current word reversed. -/
def pySplitAux (acc : List Char) : List Char → List (List Char)
  | [] => if acc.isEmpty then [] else [acc.reverse]
  | c :: cs =>
    if pyIsSpace c then
      if acc.isEmpty then pySplitAux [] cs
      else acc.reverse :: pySplitAux [] cs
    else pySplitAux (c :: acc) cs

def pySplit (s : List Char) : List (List Char) := pySplitAux [] s

/-- `str.split('|')`: split on a single character, keeping empty pieces. -/
def splitOnAux (sep : Char) (acc : List Char) : List Char → List (List Char)
  | [] => [acc.reverse]
  | c :: cs =>
    if c.toNat == sep.toNat then acc.reverse :: splitOnAux sep [] cs
    else splitOnAux sep (c :: acc) cs

def splitOn1 (sep : Char) (s : List Char) : List (List Char) :=
  splitOnAux sep [] s

/-- `", ".join(parts)` and friends. -/
def joinSep (sep : List Char) : List (List Char) → List Char
  | [] => []
  | [p] => p
  | p :: ps => p ++ sep ++ joinSep sep ps

def toCh (s : String) : List Char := s.data

def ofCh (l : List Char) : String := String.mk l

/-! ## Regular-expression embeddings

`DOI_RE = ^(https?://(?:dx\.)?doi\.org/)?(10\.\d{4,9}/\S+)$` (IGNORECASE)
`YEAR_RE = \b(19|20)\d{2}\b`
-/

/-- Leading maximal digit run of a string, returned with the rest. -/
def digitRun : List Char → (List Char × List Char)
  | [] => ([], [])
  | c :: cs =>
    if isDigitCh c then
      let (d, r) := digitRun cs
      (c :: d, r)
    else ([], c :: cs)

/-- The `10\.\d{4,9}/\S+$` part of `DOI_RE` applied to a whole string:
`10.`, then 4–9 digits, then `/`, then one or more non-whitespace
characters reaching the end of the string. -/
def bareDoiMatch (s : List Char) : Bool :=
  match s with
  | '1' :: '0' :: '.' :: rest =>
    let (d, r) := digitRun rest
    (4 ≤ d.length && d.length ≤ 9) &&
      (match r with
       | '/' :: tail => !tail.isEmpty && tail.all (fun c => !pyIsSpace c)
       | _ => false)
  | _ => false

/-- The four concrete strings generated by
`https?://(?:dx\.)?doi\.org/` (matched case-insensitively). -/
def doiUrlHeads : List (List Char) :=
  [toCh "https://dx.doi.org/", toCh "http://dx.doi.org/",
   toCh "https://doi.org/", toCh "http://doi.org/"]

/-- `DOI_RE.match(line)`: on success returns group 2 (the bare DOI,
original casing). -/
def doiMatch (s : List Char) : Option (List Char) :=
  match doiUrlHeads.find? (fun h => ciLeads h s) with
  | some h =>
    let rest := s.drop h.length
    if bareDoiMatch rest then some rest else none
  | none => if bareDoiMatch s then some s else none

/-- Does `\b(19|20)\d{2}\b` match at the current position?  `prev` is the
character before the position (`none` at the string start), `next` the
character right after the four digits (`none` at the string end);
`\b` requires a word/non-word transition on both sides, and the first
match character is always a digit (a word character), so the boundary
conditions reduce to `prev`/`next` being absent or non-word. -/
def yearHereB (prev : Option Char) (c0 c1 c2 c3 : Char)
    (next : Option Char) : Bool :=
  (match prev with | none => true | some p => !isWordCh p) &&
  ((c0.toNat == 49 && c1.toNat == 57) ||
   (c0.toNat == 50 && c1.toNat == 48)) &&
  isDigitCh c2 && isDigitCh c3 &&
  (match next with | none => true | some n => !isWordCh n)

/-- `YEAR_RE.search(s)`: the first matched year, if any. -/
def yearSearchAux (prev : Option Char) : List Char → Option (List Char)
  | c0 :: c1 :: c2 :: c3 :: rest =>
    if yearHereB prev c0 c1 c2 c3 rest.head? then some [c0, c1, c2, c3]
    else yearSearchAux (some c0) (c1 :: c2 :: c3 :: rest)
  | _ => none

def yearSearch (s : List Char) : Option (List Char) :=
  yearSearchAux none s

/-- `YEAR_RE.sub('', s)`: delete every (non-overlapping, left-to-right)
year match.  After a match the scan resumes right after it, with the
match's last character as the new "previous character". -/
def yearSubAux (prev : Option Char) : List Char → List Char
  | c0 :: c1 :: c2 :: c3 :: rest =>
    if yearHereB prev c0 c1 c2 c3 rest.head? then yearSubAux (some c3) rest
    else c0 :: yearSubAux (some c0) (c1 :: c2 :: c3 :: rest)
  | c :: cs => c :: yearSubAux (some c) cs
  | [] => []

def yearSubAll (s : List Char) : List Char := yearSubAux none s

/-! ## Input classifier (`detect_input_type` and its two heuristics) -/

/-- `JOURNAL_HINTS` (all stored lowercase in the source). -/
def JOURNAL_HINTS : List (List Char) :=
  [toCh "nature", toCh "science", toCh "cell", toCh "lancet", toCh "nejm",
   toCh "jama", toCh "pnas", toCh "plos", toCh "ieee", toCh "acm",
   toCh "neurips", toCh "nips", toCh "icml", toCh "iclr", toCh "cvpr",
   toCh "aaai", toCh "emnlp", toCh "acl", toCh "naacl", toCh "arxiv",
   toCh "biorxiv", toCh "medrxiv", toCh "annals", toCh "journal",
   toCh "letters", toCh "review", toCh "proceedings", toCh "transactions",
   toCh "frontiers", toCh "nature medicine", toCh "nature methods",
   toCh "nature communications"]

/-- Run equality on code-point lists (case already folded by `lowNs`). -/
def leadsN : List Nat → List Nat → Bool
  | [], _ => true
  | _ :: _, [] => false
  | p :: ps, c :: cs => (p == c) && leadsN ps cs

/-- Substring test on code-point lists (Python `hint in t`). -/
def containsN (pat : List Nat) : List Nat → Bool
  | [] => pat.isEmpty
  | c :: cs => leadsN pat (c :: cs) || containsN pat cs

/-- `looks_like_journal`: a hint occurs as a substring of the lowercased
trimmed text, or the text has ≤ 3 words and ≤ 40 characters. -/
def looks_like_journal (text : List Char) : Bool :=
  let t := pyStrip text
  let tl := lowNs t
  JOURNAL_HINTS.any (fun h => containsN (lowNs h) tl) ||
  ((pySplit t).length ≤ 3 && t.length ≤ 40)

/-- `looks_like_author`: no digits, ≤ 3 whitespace words, every word of
length ≥ 2. -/
def looks_like_author (text : List Char) : Bool :=
  let t := pyStrip text
  if t.any isDigitCh then false
  else
    let words := pySplit t
    words.length ≤ 3 && words.all (fun w => 2 ≤ w.length)

/-- The dict returned by `detect_input_type`.  `kind` holds the
`result['type']` string. -/
structure QueryInfo where
  raw : List Char
  kind : List Char
  doi : Option (List Char)
  title : Option (List Char)
  author : Option (List Char)
  journal : Option (List Char)
  year : Option (List Char)
  deriving Repr, DecidableEq

/-- Year-extraction loop of `detect_input_type` (lines 115–127): a
left-to-right pass threading the current `year` (later matches overwrite
earlier ones) and appending surviving parts to `clean_parts`. -/
def extractYearLoop (year : Option (List Char)) (clean : List (List Char)) :
    List (List Char) → Option (List Char) × List (List Char)
  | [] => (year, clean)
  | p :: ps =>
    match yearSearch p with
    | some y =>
      if (pyStrip p).length ≤ 6 then
        -- the part IS the year: keep the year, drop the part entirely
        extractYearLoop (some y) clean ps
      else
        -- strip the year token (plus ` ,`) from the part, keep the rest
        let p' := pyStripChars [' ', ','] (yearSubAll p)
        extractYearLoop (some y) (if p'.isEmpty then clean else clean ++ [p']) ps
    | none =>
      extractYearLoop year (if p.isEmpty then clean else clean ++ [p]) ps

def extractYear (parts : List (List Char)) :
    Option (List Char) × List (List Char) :=
  extractYearLoop none [] parts

/-- The part-count dispatch of `detect_input_type` (lines 131–181) on
the post-extraction `clean_parts`.  The source indexes `clean_parts[0]`
in its final branch; on an empty `clean_parts` this raises `IndexError`,
which we model as `none`.  Every normal exit is `some`. -/
def classifyClean (raw : List Char) (year : Option (List Char)) :
    List (List Char) → Option QueryInfo
  | [t] =>
    some { raw := raw, kind := toCh "title_only", doi := none,
           title := some t, author := none, journal := none, year := year }
  | [a, b] =>
    if looks_like_author a && looks_like_journal b then
      some { raw := raw, kind := toCh "author_journal_year", doi := none,
             title := none, author := some a, journal := some b, year := year }
    else if looks_like_journal b then
      some { raw := raw, kind := toCh "title_journal_year", doi := none,
             title := some a, author := none, journal := some b, year := year }
    else
      some { raw := raw, kind := toCh "title_year", doi := none,
             title := some a, author := none,
             journal := if year.isNone then some b else none, year := year }
  | [a, b, c] =>
    if looks_like_author a && looks_like_journal c then
      some { raw := raw, kind := toCh "author_title_journal_year", doi := none,
             title := some b, author := some a, journal := some c, year := year }
    else if looks_like_author a && looks_like_journal b then
      some { raw := raw, kind := toCh "author_journal_year", doi := none,
             title := none, author := some a, journal := some b, year := year }
    else
      some { raw := raw, kind := toCh "title_journal_year", doi := none,
             title := some a, author := none, journal := some b, year := year }
  | [] => none   -- `clean_parts[0]` raises IndexError here
  | a :: b :: c :: d :: rest =>
    -- 4+ parts: author = first, journal = last, title = middle joined
    some { raw := raw, kind := toCh "author_title_journal_year", doi := none,
           title := some (joinSep [' '] (b :: c :: d :: rest).dropLast),
           author := some a,
           journal := some ((b :: c :: d :: rest).getLast (List.cons_ne_nil _ _)),
           year := year }

/-- `detect_input_type(line)`. -/
def detect_input_type (line : List Char) : Option QueryInfo :=
  match doiMatch (pyStrip line) with
  | some d =>
    some { raw := line, kind := toCh "doi", doi := some d,
           title := none, author := none, journal := none, year := none }
  | none =>
    classifyClean line
      (extractYear ((splitOn1 '|' (pyStrip line)).map pyStrip)).1
      (extractYear ((splitOn1 '|' (pyStrip line)).map pyStrip)).2

/-! ## Metadata records and field helpers

A CrossRef `message` dict.  Missing keys are modelled by the `.get`
defaults the source uses (`""`, `[]`), and optional presence where the
source distinguishes it (`author_dict.get("family", ...)`). -/

structure Author where
  family : Option (List Char) := none
  given : Option (List Char) := none
  name : Option (List Char) := none
  deriving Repr, DecidableEq

structure Msg where
  author : List Author := []
  volume : List Char := []
  issue : List Char := []
  page : List Char := []
  publisher : List Char := []
  containerTitle : List (List Char) := []
  title : List (List Char) := []
  published : Option (List (List Nat)) := none
  publishedPrint : Option (List (List Nat)) := none
  publishedOnline : Option (List (List Nat)) := none
  issued : Option (List (List Nat)) := none
  DOI : Option (List Char) := none
  deriving Repr, DecidableEq

def get_authors (m : Msg) : List Author := m.author
def get_volume (m : Msg) : List Char := m.volume
def get_issue (m : Msg) : List Char := m.issue
def get_pages (m : Msg) : List Char := m.page

/-- Decimal digits of a `Nat`, as Python `str(n)` (fuel-structural so it
reduces in the kernel). -/
def digitChar (d : Nat) : Char := Char.ofNat (48 + d)

def natStrAux : Nat → Nat → List Char
  | 0, _ => []
  | f + 1, n => if n < 10 then [digitChar n]
                else natStrAux f (n / 10) ++ [digitChar (n % 10)]

def natStr (n : Nat) : List Char := natStrAux (n + 1) n

/-- The year of one date field: `date and date[0] and date[0][0]`
(`0` is falsy in Python, hence the `y ≠ 0` guard). -/
def yearOf : Option (List (List Nat)) → Option Nat
  | some ((y :: _) :: _) => if y ≠ 0 then some y else none
  | _ => none

/-- `get_year`: first populated year among published → published-print →
published-online → issued, else `"n.d."`. -/
def get_year (m : Msg) : List Char :=
  match yearOf m.published with
  | some y => natStr y
  | none =>
    match yearOf m.publishedPrint with
    | some y => natStr y
    | none =>
      match yearOf m.publishedOnline with
      | some y => natStr y
      | none =>
        match yearOf m.issued with
        | some y => natStr y
        | none => toCh "n.d."

def get_journal (m : Msg) : List Char :=
  match m.containerTitle with
  | c :: _ => c
  | [] => m.publisher

def get_title (m : Msg) : List Char :=
  match m.title with
  | t :: _ => t
  | [] => toCh "Untitled"

/-- `a.get("family", a.get("name", "?"))`. -/
def authorFamilyOr (a : Author) : List Char :=
  a.family.getD (a.name.getD (toCh "?"))

/-- `"".join(f"{p[0]}." for p in given.split())`. -/
def initialsDots (given : List Char) : List Char :=
  ((pySplit given).map (fun p => [p.headD ' ', '.'])).flatten

/-- `get_full_names_last_first`: `f"{family}, {initials}".strip(", ")`. -/
def get_full_names_last_first (authors : List Author) : List (List Char) :=
  authors.map (fun a =>
    let family := authorFamilyOr a
    let given := a.given.getD []
    let initials := if given.isEmpty then [] else initialsDots given
    pyStripChars [',', ' '] (family ++ toCh ", " ++ initials))

/-- `get_full_names_first_last`: `f"{initials} {family}".strip()`. -/
def get_full_names_first_last (authors : List Author) : List (List Char) :=
  authors.map (fun a =>
    let family := authorFamilyOr a
    let given := a.given.getD []
    let initials := if given.isEmpty then [] else initialsDots given
    pyStrip (initials ++ toCh " " ++ family))

/-! ## Citation formatters (the styles the claims exercise) -/

/-- `fmt_apa`. -/
def fmt_apa (m : Msg) (raw_doi : List Char) (idx : Nat) : List Char :=
  let names := get_full_names_last_first (get_authors m)
  let authors :=
    if names.length = 0 then toCh "Unknown"
    else if names.length = 1 then names.headD []
    else if names.length ≤ 20 then
      joinSep (toCh ", ") names.dropLast ++ toCh ", & " ++ names.getLastD []
    else
      joinSep (toCh ", ") (names.take 19) ++ toCh ", ... " ++ names.getLastD []
  let vol := get_volume m
  let issue := get_issue m
  let pages := get_pages m
  let source := get_journal m ++
    (if vol.isEmpty then [] else toCh ", " ++ vol) ++
    (if issue.isEmpty then [] else toCh "(" ++ issue ++ toCh ")") ++
    (if pages.isEmpty then [] else toCh ", " ++ pages)
  natStr idx ++ toCh ". " ++ authors ++ toCh " (" ++ get_year m ++ toCh "). " ++
    get_title m ++ toCh ". " ++ source ++ toCh ". https://doi.org/" ++ raw_doi

/-- The `source` string built by `fmt_vancouver` (journal, year,
volume/issue/pages). -/
def vancouverSource (m : Msg) : List Char :=
  let vol := get_volume m
  let issue := get_issue m
  let pages := get_pages m
  get_journal m ++ toCh "." ++
    (if vol.isEmpty && issue.isEmpty && pages.isEmpty then
      toCh " " ++ get_year m
    else
      toCh " " ++ get_year m ++
      (if vol.isEmpty then [] else toCh ";" ++ vol) ++
      (if issue.isEmpty then [] else toCh "(" ++ issue ++ toCh ")") ++
      (if pages.isEmpty then [] else toCh ":" ++ pages))

/-- `fmt_vancouver`. -/
def fmt_vancouver (m : Msg) (raw_doi : List Char) (idx : Nat) : List Char :=
  let names := get_full_names_last_first (get_authors m)
  let authors :=
    if names.length = 0 then toCh "Unknown"
    else if names.length ≤ 6 then joinSep (toCh ", ") names
    else joinSep (toCh ", ") (names.take 6) ++ toCh ", et al."
  natStr idx ++ toCh ". " ++ authors ++ toCh ". " ++ get_title m ++ toCh ". " ++
    vancouverSource m ++ toCh ". https://doi.org/" ++ raw_doi ++ toCh "."

/-- The `source` string built by `fmt_ieee`. -/
def ieeeSource (m : Msg) : List Char :=
  let vol := get_volume m
  let issue := get_issue m
  let pages := get_pages m
  toCh "*" ++ get_journal m ++ toCh "*" ++
    (if vol.isEmpty then [] else toCh ", vol. " ++ vol) ++
    (if issue.isEmpty then [] else toCh ", no. " ++ issue) ++
    (if pages.isEmpty then [] else toCh ", pp. " ++ pages)

/-- `fmt_ieee`. -/
def fmt_ieee (m : Msg) (raw_doi : List Char) (idx : Nat) : List Char :=
  let names := get_full_names_first_last (get_authors m)
  let authors :=
    if names.length = 0 then toCh "Unknown"
    else if names.length ≤ 6 then joinSep (toCh ", ") names
    else joinSep (toCh ", ") (names.take 6) ++ toCh " et al."
  toCh "[" ++ natStr idx ++ toCh "] " ++ authors ++ toCh ", \"" ++
    get_title m ++ toCh ",\" " ++ ieeeSource m ++ toCh ", " ++ get_year m ++
    toCh ", doi: https://doi.org/" ++ raw_doi ++ toCh "."

/-- The `source` string built by `fmt_ama`. -/
def amaSource (m : Msg) : List Char :=
  let vol := get_volume m
  let issue := get_issue m
  let pages := get_pages m
  get_journal m ++ toCh "." ++
    (if vol.isEmpty then toCh " " ++ get_year m
     else
       toCh " " ++ get_year m ++ toCh ";" ++ vol ++
       (if issue.isEmpty then [] else toCh "(" ++ issue ++ toCh ")") ++
       (if pages.isEmpty then [] else toCh ":" ++ pages))

/-- `fmt_ama`. -/
def fmt_ama (m : Msg) (raw_doi : List Char) (idx : Nat) : List Char :=
  let names := get_full_names_last_first (get_authors m)
  let authors :=
    if names.length = 0 then toCh "Unknown"
    else if names.length ≤ 6 then joinSep (toCh ", ") names
    else joinSep (toCh ", ") (names.take 6) ++ toCh ", et al."
  natStr idx ++ toCh ". " ++ authors ++ toCh ". " ++ get_title m ++ toCh ". " ++
    amaSource m ++ toCh ". doi:https://doi.org/" ++ raw_doi

/-! ## Author-match predicate (`_author_matches_query`) -/

/-- Case-insensitive string equality (the source lowercases both sides
before comparing). -/
def ciEq (a b : List Char) : Bool := lowNs a == lowNs b

/-- `_author_matches_query(author_dict, query)`.  All names are
lowercased and stripped before any comparison; `initials` here carry no
dots (`p[0]` only). -/
def author_matches_query (a : Author) (query : List Char) : Bool :=
  let family := pyStrip (a.family.getD [])
  let given := pyStrip (a.given.getD [])
  let full := pyStrip (given ++ toCh " " ++ family)
  let initials := (pySplit given).map (fun p => p.headD ' ')
  let q := pyStrip query
  let nameParts := pySplit given
  let firstGiven := nameParts.headD []
  ciEq q family ||
  ciEq q given ||
  ciEq q full ||
  ciEq q (family ++ toCh ", " ++ given) ||
  ciEq q (pyStrip (given ++ toCh " " ++ family)) ||
  ciEq q (pyStrip (firstGiven ++ toCh " " ++ family)) ||
  ciEq q (pyStrip (family ++ toCh ", " ++ firstGiven)) ||
  ciEq q (family ++ toCh " " ++ initials) ||
  ciEq q (initials ++ toCh " " ++ family) ||
  ciEq q (family ++ toCh ", " ++ initials) ||
  leadsN (lowNs q) (lowNs family) ||
  (3 ≤ q.length && containsN (lowNs q) (lowNs family)) ||
  (3 ≤ q.length && ciEq q firstGiven)

/-! ## Highlight engine (`_apply_highlight`)

The regex is `(?<![A-Za-z.'])(<target escaped>)(?![A-Za-z])` with
IGNORECASE; `finditer` scans left to right, resuming after each match.
A match is wrapped in `open`/`close` tags unless the segment of text
since the previous match end contains more (case-sensitive,
non-overlapping) occurrences of the open tag than of the close tag. -/

/-- Python `segment.count(pat)`: non-overlapping occurrences, scanning
left to right (fuel-structural, with `fuel ≥ text.length`). -/
def countOccF (pat : List Char) : Nat → List Char → Nat
  | 0, _ => 0
  | _ + 1, [] => 0
  | f + 1, c :: cs =>
    if !pat.isEmpty && leads pat (c :: cs) then
      1 + countOccF pat f ((c :: cs).drop pat.length)
    else countOccF pat f cs

def countOcc (pat s : List Char) : Nat := countOccF pat s.length s

/-- Left context check `(?<![A-Za-z.'])` (code points 46 = dot,
39 = apostrophe). -/
def okBefore : Option Char → Bool
  | none => true
  | some p => !(isAsciiLetter p || p.toNat == 46 || p.toNat == 39)

/-- Right context check `(?![A-Za-z])`. -/
def okAfter : Option Char → Bool
  | none => true
  | some n => !isAsciiLetter n

/-- The `finditer` loop for one target.  `prev` is the character before
the current position, `acc` the (reversed) segment scanned since the
last match end.  Fuel starts at `text.length` and is an upper bound on
the remaining text. -/
def hlF (t op cl : List Char) : Nat → Option Char → List Char → List Char →
    List Char
  | 0, _, acc, text => acc.reverse ++ text
  | f + 1, prev, acc, text =>
    match text with
    | [] => acc.reverse
    | c :: cs =>
      if !t.isEmpty && okBefore prev && ciLeads t (c :: cs) &&
          okAfter ((c :: cs).drop t.length).head? then
        let before := acc.reverse
        let matched := (c :: cs).take t.length
        let rest := (c :: cs).drop t.length
        if countOcc cl before < countOcc op before then
          before ++ matched ++ hlF t op cl f matched.getLast? [] rest
        else
          before ++ op ++ matched ++ cl ++ hlF t op cl f matched.getLast? [] rest
      else
        hlF t op cl f (some c) (c :: acc) cs

/-- One pass of the `for m in pattern.finditer(text)` body for a single
target. -/
def applyOneTarget (text t op cl : List Char) : List Char :=
  hlF t op cl text.length none [] text

/-- The "previous character" after scanning past `seg`, starting from
`prev` (used to describe `hlF`'s state evolution). -/
def prevAfter (seg : List Char) (prev : Option Char) : Option Char :=
  match seg.getLast? with
  | some c => some c
  | none => prev

/-- `_apply_highlight(text, targets, open_tag, close_tag)`. -/
def apply_highlight (text : List Char) (targets : List (List Char))
    (op cl : List Char) : List Char :=
  targets.foldl (fun tx tg => applyOneTarget tx tg op cl) text

def apply_highlight_md (text : List Char) (targets : List (List Char)) :
    List Char :=
  apply_highlight text targets (toCh "**") (toCh "**")

def apply_highlight_html (text : List Char) (targets : List (List Char)) :
    List Char :=
  apply_highlight text targets (toCh "<strong>") (toCh "</strong>")

def apply_highlight_pdf (text : List Char) (targets : List (List Char)) :
    List Char :=
  apply_highlight text targets (toCh "<b>") (toCh "</b>")

/-! ## HTTP GET with retries (`_get`)

The transport is abstracted as a function from the attempt number
(1-based) to what that attempt observes: a parsed body, an HTTP error
status, or a network/timeout error.  Sleeps, stderr logging and the
`Retry-After` header value are irrelevant to the claims and are not
modelled. -/

def MAX_RETRIES : Nat := 3

inductive HttpAttempt (α : Type) where
  | success (data : α)
  | httpError (code : Nat)
  | netError
  deriving Repr, DecidableEq

inductive GetOutcome (α : Type) where
  | ok (data : α)
  /-- the bare `raise` for a non-retryable `HTTPError` -/
  | raisedHttp (code : Nat)
  /-- `RuntimeError(f"Failed after {MAX_RETRIES} attempts: {url}")` -/
  | exhausted (url : List Char)
  deriving Repr, DecidableEq

/-- `for attempt in range(1, MAX_RETRIES + 1)`: `attempt` is the loop
counter, `rem` the remaining iterations. -/
def getLoop {α : Type} (url : List Char) (att : Nat → HttpAttempt α) :
    Nat → Nat → GetOutcome α
  | _, 0 => .exhausted url
  | attempt, rem + 1 =>
    match att attempt with
    | .success d => .ok d
    | .httpError code =>
      if code = 429 then getLoop url att (attempt + 1) rem
      else if 500 ≤ code then getLoop url att (attempt + 1) rem
      else .raisedHttp code
    | .netError => getLoop url att (attempt + 1) rem

def get_model {α : Type} (url : List Char) (att : Nat → HttpAttempt α) :
    GetOutcome α :=
  getLoop url att 1 MAX_RETRIES

/-- An attempt outcome on which the loop keeps going (429, 5xx, network
error). -/
def retriableAttempt {α : Type} : HttpAttempt α → Bool
  | .success _ => false
  | .httpError code => code == 429 || 500 ≤ code
  | .netError => true

/-! ## Fuzzy search and resolution (`search_crossref`, `resolve_input`)

`search_crossref` wraps `_get` in `try/except Exception` and returns
`data.get("message", {}).get("items", [])`; any failure (the re-raised
4xx `HTTPError`, the retry-exhaustion `RuntimeError`, or a malformed
body) yields `[]`. -/

structure SearchMessage where
  items : Option (List Msg) := none
  deriving DecidableEq

structure SearchData where
  message : Option SearchMessage := none
  deriving DecidableEq

/-- `search_crossref` given the outcome of its `_get` call. -/
def search_model (g : GetOutcome SearchData) : List Msg :=
  match g with
  | .ok data => ((data.message.getD {}).items.getD [])
  | .raisedHttp _ => []
  | .exhausted _ => []

/-- The user's answer to the "pick 1–n or s to skip" prompt (only valid
answers terminate the source's `while True` prompt loop). -/
inductive PickAction where
  | skip
  | pick (n : Nat)
  deriving Repr, DecidableEq

/-- The fuzzy branch of `resolve_input`, given the candidate list its
`search_crossref` call produced, the user's choice, and the behaviour of
`fetch_by_doi` for the re-fetch (`fetchFull d = (full-or-none, raw)`).
Returns `(msg, raw_doi)` with `msg = none` meaning unresolved. -/
def resolve_fuzzy (candidates : List Msg) (act : PickAction)
    (fetchFull : List Char → Option Msg × List Char) :
    Option Msg × List Char :=
  match candidates with
  | [] => (none, [])
  | [c] => (some c, c.DOI.getD [])
  | cs =>
    match act with
    | .skip => (none, [])
    | .pick n =>
      if 1 ≤ n && n ≤ cs.length then
        let chosen := cs.getD (n - 1) {}
        let rawDoi := chosen.DOI.getD []
        let fr := fetchFull rawDoi
        ((fr.1).getD chosen |> some,
         if (fr.2).isEmpty then rawDoi else fr.2)
      else (none, [])   -- invalid input re-prompts; unreachable for valid acts

/-! ## Ordinal assignment in the two processing loops

The network and the interactive prompts are external; what each loop
does to its running `idx` counter depends only on which branch a line
takes, so the loops are modelled over a list of per-line branch
outcomes. -/

/-- CLI loop (`main`, lines 1116–1127): one entry per line whose
`resolve_input` returned a record; `idx` increments only then. -/
def cliProcess {α : Type} : Nat → List (Option α) → List (α × Nat)
  | _, [] => []
  | idx, none :: rest => cliProcess idx rest
  | idx, some a :: rest => (a, idx) :: cliProcess (idx + 1) rest

def cliEntries {α : Type} (outcomes : List (Option α)) : List (α × Nat) :=
  cliProcess 1 outcomes

/-- One line of the app's `_process_all_auto` + the later ambiguous
resolution, reduced to its effect on entries and `idx`:

* `autoResolved` — a DOI or single-candidate line that resolved to a new
  record (branches that run `fmt_fn(…, idx)` then `idx += 1`);
* `autoRejected` — no results / fetch failure / duplicate detected during
  the auto pass (an error placeholder is stored and `idx` is untouched);
* `ambiguous picked dup` — a multi-candidate line: the auto pass stores a
  `None` placeholder and always runs `idx += 1` reserving `entry_idx`;
  during resolution the user either picks a candidate (`picked = true`,
  which formats with the reserved `entry_idx` unless the candidate turns
  out to be a duplicate, `dup = true`) or skips (`picked = false`). -/
inductive AppLine where
  | autoResolved
  | autoRejected
  | ambiguous (picked : Bool) (dup : Bool)
  deriving Repr, DecidableEq

/-- The ordinal each input line contributes to the final reference list
(`none` for error placeholders, skipped and duplicate entries). -/
def appProcess : Nat → List AppLine → List (Option Nat)
  | _, [] => []
  | idx, .autoResolved :: rest => some idx :: appProcess (idx + 1) rest
  | idx, .autoRejected :: rest => none :: appProcess idx rest
  | idx, .ambiguous picked dup :: rest =>
    (if picked && !dup then some idx else none) :: appProcess (idx + 1) rest

def appOrdinals (ls : List AppLine) : List Nat :=
  (appProcess 1 ls).reduceOption

/-! ## Concrete instances used by the claim theorems -/

/-- The author of claims C3: given "Jon Andrew", family "Doe". -/
def doeAuthor : Author :=
  { family := some (toCh "Doe"), given := some (toCh "Jon Andrew") }

/-- The record of claim C4 (title instantiated to "Deep learning"). -/
def hintonMsg : Msg :=
  { author := [{ family := some (toCh "Hinton"),
                 given := some (toCh "Geoffrey E") }],
    volume := toCh "500", issue := toCh "7461", page := toCh "123-126",
    containerTitle := [toCh "Nature"], title := [toCh "Deep learning"],
    published := some [[2015]] }

/-- An n-author record on which the C7 truncation boundaries are
witnessed: authors `Aut1 B`, `Aut2 B`, … with journal/volume data. -/
def smithAuthor (i : Nat) : Author :=
  { family := some (toCh "Aut" ++ natStr i), given := some (toCh "Bo") }

def authorsMsg (n : Nat) : Msg :=
  { author := (List.range n).map (fun i => smithAuthor (i + 1)),
    volume := toCh "5", page := toCh "1-9",
    containerTitle := [toCh "Nature"], title := [toCh "A title"],
    published := some [[2020]] }

/-! # Claim theorems -/

/-- C1: the spec says classification never fails, and in particular is
total on lines whose pipe-separated parts all consist solely of a year
token.  The code is not: on the line `"2017"` the year-extraction loop
consumes the only part, `clean_parts` is empty, and the final branch's
`clean_parts[0]` raises `IndexError` (modelled as `none`) instead of
producing any descriptor. -/
theorem c1_classifier_crashes_on_year_only_line :
    detect_input_type (toCh "2017") = none ∧
    detect_input_type (toCh "2017 | 2018") = none := by
  decide

/-- C3 counterexample: the claim includes the query `"oe"` among those
`_author_matches_query` must accept for given "Jon Andrew" / family
"Doe", but `"oe"` has length 2, so the `len(q) >= 3` substring rule does
not apply and no other alternative matches: the predicate returns
`false`. -/
theorem c3_counterexample_oe_query :
    author_matches_query doeAuthor (toCh "oe") = false := by
  decide

/-- C3 amended: for the author with given name "Jon Andrew" and family
name "Doe", all the claimed queries except `"oe"` satisfy
`_author_matches_query`; `"oe"` (length 2 < 3) does not. -/
theorem c3_amended_author_queries :
    author_matches_query doeAuthor (toCh "doe") = true ∧
    author_matches_query doeAuthor (toCh "jon andrew") = true ∧
    author_matches_query doeAuthor (toCh "jon andrew doe") = true ∧
    author_matches_query doeAuthor (toCh "doe, jon andrew") = true ∧
    author_matches_query doeAuthor (toCh "jon doe") = true ∧
    author_matches_query doeAuthor (toCh "doe, jon") = true ∧
    author_matches_query doeAuthor (toCh "doe ja") = true ∧
    author_matches_query doeAuthor (toCh "ja doe") = true ∧
    author_matches_query doeAuthor (toCh "doe, ja") = true ∧
    author_matches_query doeAuthor (toCh "do") = true ∧
    author_matches_query doeAuthor (toCh "jon") = true ∧
    author_matches_query doeAuthor (toCh "oe") = false := by
  decide

/-- C4 counterexample: for the Hinton record the claim's expected string
abbreviates the author as "Hinton, G.", but `get_full_names_last_first`
joins one initial per given-name token ("Geoffrey E" → "G.E."), so the
APA output differs from the claimed string. -/
theorem c4_counterexample_apa_initials :
    fmt_apa hintonMsg (toCh "10.1/x") 1 ≠
      toCh ("1. Hinton, G. (2015). Deep learning. " ++
            "Nature, 500(7461), 123-126. https://doi.org/10.1/x") := by
  decide

/-- C4 amended: the record with journal "Nature", volume "500", issue
"7461", page "123-126", year "2015" and single author family "Hinton" /
given "Geoffrey E" (primary title "Deep learning"), formatted in APA
with ordinal 1 and canonical id "10.1/x", produces exactly the claimed
string with author rendered as "Hinton, G.E.". -/
theorem c4_amended_apa_exact_output :
    fmt_apa hintonMsg (toCh "10.1/x") 1 =
      toCh ("1. Hinton, G.E. (2015). Deep learning. " ++
            "Nature, 500(7461), 123-126. https://doi.org/10.1/x") := by
  decide

/-- C5 counterexample: the line `"Attention is all you need | 2017"`
does not classify as `title_year`: the `| 2017` part is consumed whole
by year extraction, a single clean part remains, and the classifier
returns kind `title_only`. -/
theorem c5_counterexample_kind_is_title_only :
    (detect_input_type (toCh "Attention is all you need | 2017")).map
        QueryInfo.kind = some (toCh "title_only") ∧
    toCh "title_only" ≠ toCh "title_year" := by
  decide

/-- C5 amended: the line `"Attention is all you need | 2017"` classifies
with kind `title_only`, title "Attention is all you need" and year
"2017" (the year is still extracted into the `year` field; only the kind
label differs from the claim). -/
theorem c5_amended_title_only_classification :
    detect_input_type (toCh "Attention is all you need | 2017") =
      some { raw := toCh "Attention is all you need | 2017",
             kind := toCh "title_only",
             doi := none,
             title := some (toCh "Attention is all you need"),
             author := none,
             journal := none,
             year := some (toCh "2017") } := by
  decide

/-- C7: truncation boundaries of the Vancouver, IEEE and AMA formatters
are exact: with exactly 6 authors each renders the full comma-separated
name list with nothing appended; with exactly 7 each renders only the
first 6 names followed by its "et al." suffix. -/
theorem c7_truncation_boundaries (m : Msg) (d : List Char) (i : Nat) :
    ((get_authors m).length = 6 →
      fmt_vancouver m d i =
        natStr i ++ toCh ". " ++
        joinSep (toCh ", ") (get_full_names_last_first (get_authors m)) ++
        toCh ". " ++ get_title m ++ toCh ". " ++ vancouverSource m ++
        toCh ". https://doi.org/" ++ d ++ toCh ".") ∧
    ((get_authors m).length = 7 →
      fmt_vancouver m d i =
        natStr i ++ toCh ". " ++
        joinSep (toCh ", ")
          ((get_full_names_last_first (get_authors m)).take 6) ++
        toCh ", et al." ++
        toCh ". " ++ get_title m ++ toCh ". " ++ vancouverSource m ++
        toCh ". https://doi.org/" ++ d ++ toCh ".") ∧
    ((get_authors m).length = 6 →
      fmt_ieee m d i =
        toCh "[" ++ natStr i ++ toCh "] " ++
        joinSep (toCh ", ") (get_full_names_first_last (get_authors m)) ++
        toCh ", \"" ++ get_title m ++ toCh ",\" " ++ ieeeSource m ++
        toCh ", " ++ get_year m ++ toCh ", doi: https://doi.org/" ++ d ++
        toCh ".") ∧
    ((get_authors m).length = 7 →
      fmt_ieee m d i =
        toCh "[" ++ natStr i ++ toCh "] " ++
        joinSep (toCh ", ")
          ((get_full_names_first_last (get_authors m)).take 6) ++
        toCh " et al." ++
        toCh ", \"" ++ get_title m ++ toCh ",\" " ++ ieeeSource m ++
        toCh ", " ++ get_year m ++ toCh ", doi: https://doi.org/" ++ d ++
        toCh ".") ∧
    ((get_authors m).length = 6 →
      fmt_ama m d i =
        natStr i ++ toCh ". " ++
        joinSep (toCh ", ") (get_full_names_last_first (get_authors m)) ++
        toCh ". " ++ get_title m ++ toCh ". " ++ amaSource m ++
        toCh ". doi:https://doi.org/" ++ d) ∧
    ((get_authors m).length = 7 →
      fmt_ama m d i =
        natStr i ++ toCh ". " ++
        joinSep (toCh ", ")
          ((get_full_names_last_first (get_authors m)).take 6) ++
        toCh ", et al." ++
        toCh ". " ++ get_title m ++ toCh ". " ++ amaSource m ++
        toCh ". doi:https://doi.org/" ++ d) := by
  have hlf : ∀ n, (get_authors m).length = n →
      (get_full_names_last_first (get_authors m)).length = n := by
    intro n h
    simpa [get_full_names_last_first] using h
  have hfl : ∀ n, (get_authors m).length = n →
      (get_full_names_first_last (get_authors m)).length = n := by
    intro n h
    simpa [get_full_names_first_last] using h
  refine ⟨fun h => ?_, fun h => ?_, fun h => ?_, fun h => ?_,
          fun h => ?_, fun h => ?_⟩
  · simp [fmt_vancouver, hlf 6 h]
  · simp [fmt_vancouver, hlf 7 h]
  · simp [fmt_ieee, hfl 6 h]
  · simp [fmt_ieee, hfl 7 h]
  · simp [fmt_ama, hlf 6 h]
  · simp [fmt_ama, hlf 7 h]

/-- C7 witness: concrete 6- and 7-author records instantiating the
boundary theorems. -/
theorem c7_truncation_boundaries_witness :
    (get_authors (authorsMsg 6)).length = 6 ∧
    (get_authors (authorsMsg 7)).length = 7 ∧
    fmt_vancouver (authorsMsg 6) (toCh "10.1/x") 1 =
      toCh ("1. Aut1, B., Aut2, B., Aut3, B., Aut4, B., Aut5, B., " ++
            "Aut6, B.. A title. Nature. 2020;5:1-9. https://doi.org/10.1/x.") ∧
    fmt_vancouver (authorsMsg 7) (toCh "10.1/x") 1 =
      toCh ("1. Aut1, B., Aut2, B., Aut3, B., Aut4, B., Aut5, B., " ++
            "Aut6, B., et al.. A title. Nature. 2020;5:1-9. " ++
            "https://doi.org/10.1/x.") :=
  ⟨by decide, by decide,
   ((c7_truncation_boundaries (authorsMsg 6) (toCh "10.1/x") 1).1
      (by decide)).trans (by decide),
   ((c7_truncation_boundaries (authorsMsg 7) (toCh "10.1/x") 1).2.1
      (by decide)).trans (by decide)⟩

theorem getLoop_succ {α : Type} (url : List Char)
    (att : Nat → HttpAttempt α) (attempt rem : Nat) :
    getLoop url att attempt (rem + 1) =
      match att attempt with
      | .success d => .ok d
      | .httpError code =>
        if code = 429 then getLoop url att (attempt + 1) rem
        else if 500 ≤ code then getLoop url att (attempt + 1) rem
        else .raisedHttp code
      | .netError => getLoop url att (attempt + 1) rem := rfl

theorem getLoop_step_retriable {α : Type} (url : List Char)
    (att : Nat → HttpAttempt α) (attempt rem : Nat)
    (h : retriableAttempt (att attempt) = true) :
    getLoop url att attempt (rem + 1) = getLoop url att (attempt + 1) rem := by
  rw [getLoop_succ]
  cases hA : att attempt with
  | success d => rw [hA] at h; simp [retriableAttempt] at h
  | httpError code =>
    rw [hA] at h
    simp only [retriableAttempt, Bool.or_eq_true, beq_iff_eq,
      decide_eq_true_eq] at h
    rcases h with h | h
    · simp [h]
    · rcases eq_or_ne code 429 with h9 | h9
      · simp [h9]
      · simp [h9, h]
  | netError => rfl

theorem getLoop_step_fatal {α : Type} (url : List Char)
    (att : Nat → HttpAttempt α) (attempt rem : Nat) (c : Nat)
    (hA : att attempt = .httpError c) (hlt : c < 500) (hne : c ≠ 429) :
    getLoop url att attempt (rem + 1) = .raisedHttp c := by
  rw [getLoop_succ, hA]
  simp [hne, Nat.not_le.mpr hlt]

theorem getLoop_congr {α : Type} (url : List Char)
    (att att' : Nat → HttpAttempt α) :
    ∀ (rem attempt : Nat),
      (∀ k, attempt ≤ k → k < attempt + rem → att k = att' k) →
      getLoop url att attempt rem = getLoop url att' attempt rem := by
  intro rem
  induction rem with
  | zero => intro attempt _; rfl
  | succ r ih =>
    intro attempt hag
    have hk : att attempt = att' attempt :=
      hag attempt (Nat.le_refl _) (by omega)
    have hrest : ∀ k, attempt + 1 ≤ k → k < attempt + 1 + r → att k = att' k :=
      fun k h1 h2 => hag k (by omega) (by omega)
    rw [getLoop_succ, getLoop_succ, hk]
    cases att' attempt with
    | success d => rfl
    | httpError code =>
      rcases eq_or_ne code 429 with h9 | h9
      · simp only [h9, if_pos rfl]
        exact ih (attempt + 1) hrest
      · rcases Nat.lt_or_ge code 500 with h5 | h5
        · simp [h9, Nat.not_le.mpr h5]
        · simp only [if_neg h9, if_pos h5]
          exact ih (attempt + 1) hrest
    | netError => exact ih (attempt + 1) hrest

/-- C8: the HTTP retry routine `_get` makes at most `MAX_RETRIES = 3`
attempts (its outcome depends only on the first three attempt results);
a 4xx HTTP error other than 429 on any attempt makes it fail immediately
with that error; and if all three attempts are retriable failures it
fails with a retry-exhaustion error carrying the request URL. -/
theorem c8_get_retry_policy {α : Type} (url : List Char)
    (att att' : Nat → HttpAttempt α) (c n : Nat) :
    ((∀ k, 1 ≤ k → k ≤ MAX_RETRIES → att k = att' k) →
      get_model url att = get_model url att') ∧
    (1 ≤ n → n ≤ MAX_RETRIES →
      (∀ m, 1 ≤ m → m < n → retriableAttempt (att m) = true) →
      att n = .httpError c → 400 ≤ c → c < 500 → c ≠ 429 →
      get_model url att = .raisedHttp c) ∧
    ((∀ k, 1 ≤ k → k ≤ MAX_RETRIES → retriableAttempt (att k) = true) →
      get_model url att = .exhausted url) := by
  refine ⟨fun hag => ?_, fun h1 h3 hpre hA _ hlt hne => ?_, fun hret => ?_⟩
  · exact getLoop_congr url att att' MAX_RETRIES 1
      (fun k hk1 hk2 => hag k hk1 (by omega))
  · -- a non-retryable 4xx at attempt n fails immediately
    have h3' : n ≤ 3 := h3
    interval_cases n
    · exact getLoop_step_fatal url att 1 2 c hA hlt hne
    · have s1 : getLoop url att 1 (2 + 1) = getLoop url att 2 (1 + 1) :=
        getLoop_step_retriable url att 1 2 (hpre 1 (by decide) (by decide))
      exact s1.trans (getLoop_step_fatal url att 2 1 c hA hlt hne)
    · have s1 : getLoop url att 1 (2 + 1) = getLoop url att 2 (1 + 1) :=
        getLoop_step_retriable url att 1 2 (hpre 1 (by decide) (by decide))
      have s2 : getLoop url att 2 (1 + 1) = getLoop url att 3 (0 + 1) :=
        getLoop_step_retriable url att 2 1 (hpre 2 (by decide) (by decide))
      exact (s1.trans s2).trans (getLoop_step_fatal url att 3 0 c hA hlt hne)
  · -- all three attempts retriable: retry-exhaustion carrying the URL
    have s1 : getLoop url att 1 (2 + 1) = getLoop url att 2 (1 + 1) :=
      getLoop_step_retriable url att 1 2 (hret 1 (by decide) (by decide))
    have s2 : getLoop url att 2 (1 + 1) = getLoop url att 3 (0 + 1) :=
      getLoop_step_retriable url att 2 1 (hret 2 (by decide) (by decide))
    have s3 : getLoop url att 3 (0 + 1) = getLoop url att 4 0 :=
      getLoop_step_retriable url att 3 0 (hret 3 (by decide) (by decide))
    exact ((s1.trans s2).trans s3).trans rfl

/-- C8 witness: a transport that times out on every attempt exhausts the
retry budget and reports the URL; the theorem also pins the first-attempt
4xx behaviour on a concrete transport. -/
theorem c8_get_retry_policy_witness :
    get_model (toCh "https://api.crossref.org/works")
        (fun _ => (HttpAttempt.netError : HttpAttempt Nat)) =
      .exhausted (toCh "https://api.crossref.org/works") ∧
    get_model (toCh "u") (fun _ => (HttpAttempt.httpError 404 : HttpAttempt Nat)) =
      .raisedHttp 404 :=
  ⟨(c8_get_retry_policy (toCh "https://api.crossref.org/works")
      (fun _ => (HttpAttempt.netError : HttpAttempt Nat))
      (fun _ => (HttpAttempt.netError : HttpAttempt Nat)) 0 1).2.2
      (fun _ _ _ => by decide),
   (c8_get_retry_policy (toCh "u")
      (fun _ => (HttpAttempt.httpError 404 : HttpAttempt Nat))
      (fun _ => (HttpAttempt.httpError 404 : HttpAttempt Nat)) 404 1).2.1
      (by decide) (by decide) (fun m h1 hm => absurd (h1.trans_lt hm) (by decide))
      rfl (by decide) (by decide) (by decide)⟩

/-- C9: every descriptor the classifier returns satisfies the invariant:
kind is `doi` iff the `doi` field is set; when kind is `doi` the title,
author, journal and year fields are all unset; for every other kind the
`doi` field is unset. -/
theorem c9_descriptor_invariant (line : List Char) (r : QueryInfo)
    (h : detect_input_type line = some r) :
    ((r.kind = toCh "doi") ↔ r.doi.isSome) ∧
    (r.kind = toCh "doi" →
      r.title = none ∧ r.author = none ∧ r.journal = none ∧ r.year = none) ∧
    (r.kind ≠ toCh "doi" → r.doi = none) := by
  have hkind : ∀ (raw : List Char) (year : Option (List Char))
      (cp : List (List Char)) (r' : QueryInfo),
      classifyClean raw year cp = some r' →
      r'.doi = none ∧ r'.kind ≠ toCh "doi" := by
    intro raw year cp r' h'
    rcases cp with _ | ⟨a, _ | ⟨b, _ | ⟨c, _ | ⟨e, rest⟩⟩⟩⟩
    · exact absurd h' (by simp [classifyClean])
    · simp only [classifyClean, Option.some.injEq] at h'
      subst h'
      exact ⟨rfl, fun hk => by dsimp only at hk; exact absurd hk (by decide)⟩
    · simp only [classifyClean] at h'
      split at h' <;> [skip; split at h'] <;>
        (simp only [Option.some.injEq] at h'; subst h') <;>
        exact ⟨rfl, fun hk => by dsimp only at hk; exact absurd hk (by decide)⟩
    · simp only [classifyClean] at h'
      split at h' <;> [skip; split at h'] <;>
        (simp only [Option.some.injEq] at h'; subst h') <;>
        exact ⟨rfl, fun hk => by dsimp only at hk; exact absurd hk (by decide)⟩
    · simp only [classifyClean, Option.some.injEq] at h'
      subst h'
      exact ⟨rfl, fun hk => by dsimp only at hk; exact absurd hk (by decide)⟩
  unfold detect_input_type at h
  cases hd : doiMatch (pyStrip line) with
  | some d =>
    rw [hd] at h
    simp only [Option.some.injEq] at h
    subst h
    refine ⟨by simp, fun _ => by simp, fun hk => absurd rfl hk⟩
  | none =>
    rw [hd] at h
    have hc := hkind line
      (extractYear ((splitOn1 '|' (pyStrip line)).map pyStrip)).1
      (extractYear ((splitOn1 '|' (pyStrip line)).map pyStrip)).2 r h
    refine ⟨⟨fun hk => absurd hk hc.2, fun hs => ?_⟩,
            fun hk => absurd hk hc.2, fun _ => hc.1⟩
    rw [hc.1] at hs
    exact absurd hs (by simp)

/-- C9 witness: the invariant instantiated on a DOI line and on a fuzzy
line. -/
theorem c9_descriptor_invariant_witness :
    (((toCh "doi" : List Char) = toCh "doi") ↔
      (some (toCh "10.1234/abcd") : Option (List Char)).isSome) ∧
    (((toCh "title_only" : List Char) = toCh "doi") ↔
      (none : Option (List Char)).isSome) :=
  ⟨(c9_descriptor_invariant (toCh "10.1234/abcd")
      { raw := toCh "10.1234/abcd", kind := toCh "doi",
        doi := some (toCh "10.1234/abcd"), title := none, author := none,
        journal := none, year := none } (by decide)).1,
   (c9_descriptor_invariant (toCh "A title with words")
      { raw := toCh "A title with words", kind := toCh "title_only",
        doi := none, title := some (toCh "A title with words"),
        author := none, journal := none, year := none } (by decide)).1⟩

/-- C10: `search_crossref` never propagates a failure of its `_get` call:
a re-raised 4xx and a retry-exhaustion error both come back as the empty
candidate list, and at the resolve step an empty candidate list — whether
from a failed search or from a genuinely empty result set — yields the
unresolved outcome `(None, "")`, making the two indistinguishable. -/
theorem c10_search_failure_absorbed (g : GetOutcome SearchData)
    (act : PickAction) (ff : List Char → Option Msg × List Char) :
    (∀ c, g = .raisedHttp c → search_model g = []) ∧
    (∀ u, g = .exhausted u → search_model g = []) ∧
    (search_model g = [] →
      resolve_fuzzy (search_model g) act ff = (none, [])) := by
  refine ⟨fun c hg => ?_, fun u hg => ?_, fun hempty => ?_⟩
  · rw [hg]; rfl
  · rw [hg]; rfl
  · rw [hempty]; rfl

/-- C10 witness: a retry-exhausted search and an empty-result search
both resolve to `(none, "")`. -/
theorem c10_search_failure_absorbed_witness :
    search_model (GetOutcome.exhausted (toCh "u")) = [] ∧
    resolve_fuzzy
        (search_model (GetOutcome.exhausted (toCh "u")))
        PickAction.skip (fun d => (none, d)) = (none, []) ∧
    resolve_fuzzy
        (search_model (GetOutcome.ok { message := some { items := some [] } }))
        PickAction.skip (fun d => (none, d)) = (none, []) :=
  ⟨(c10_search_failure_absorbed (GetOutcome.exhausted (toCh "u"))
      PickAction.skip (fun d => (none, d))).2.1 (toCh "u") rfl,
   (c10_search_failure_absorbed (GetOutcome.exhausted (toCh "u"))
      PickAction.skip (fun d => (none, d))).2.2 (by decide),
   (c10_search_failure_absorbed
      (GetOutcome.ok { message := some { items := some [] } })
      PickAction.skip (fun d => (none, d))).2.2 (by decide)⟩

theorem cliProcess_ordinals {α : Type} :
    ∀ (outs : List (Option α)) (i : Nat),
      (cliProcess i outs).map Prod.snd =
        List.range' i ((cliProcess i outs).length) := by
  intro outs
  induction outs with
  | nil => intro i; rfl
  | cons o rest ih =>
    intro i
    cases o with
    | none => exact ih i
    | some a =>
      simp only [cliProcess, List.map_cons, List.length_cons,
        List.range'_succ]
      exact congrArg (i :: ·) (ih (i + 1))

theorem appProcess_ordinals :
    ∀ (ls : List AppLine) (i : Nat),
      (∀ l ∈ ls, ∀ p d, l = AppLine.ambiguous p d → p = true ∧ d = false) →
      (appProcess i ls).reduceOption =
        List.range' i ((appProcess i ls).reduceOption.length) := by
  intro ls
  induction ls with
  | nil => intro i _; rfl
  | cons l rest ih =>
    intro i hok
    have hrest : ∀ l ∈ rest, ∀ p d, l = AppLine.ambiguous p d →
        p = true ∧ d = false :=
      fun l hl => hok l (List.mem_cons_of_mem _ hl)
    cases l with
    | autoResolved =>
      simp only [appProcess, List.reduceOption_cons_of_some,
        List.length_cons, List.range'_succ]
      exact congrArg (i :: ·) (ih (i + 1) hrest)
    | autoRejected =>
      simp only [appProcess, List.reduceOption_cons_of_none]
      exact ih i hrest
    | ambiguous p d =>
      obtain ⟨hp, hd⟩ := hok _ (List.mem_cons_self _ _) p d rfl
      subst hp; subst hd
      simp only [appProcess, Bool.not_false, Bool.and_self, if_pos,
        List.reduceOption_cons_of_some, List.length_cons, List.range'_succ]
      exact congrArg (i :: ·) (ih (i + 1) hrest)

/-- C6 counterexample: in the app's processing an ambiguous line reserves
its ordinal during the auto pass; skipping it during candidate resolution
does not give the ordinal back, so the final reference list keeps a gap:
after `[ambiguous-then-skipped, resolved]` the surviving ordinals are
`[2]`, not the contiguous `[1]`. -/
theorem c6_counterexample_app_ordinal_gap :
    appOrdinals [AppLine.ambiguous false false, AppLine.autoResolved] = [2] ∧
    appOrdinals [AppLine.ambiguous false false, AppLine.autoResolved] ≠
      List.range' 1
        (appOrdinals
          [AppLine.ambiguous false false, AppLine.autoResolved]).length := by
  decide

/-- C6 amended: in the CLI loop ordinals are assigned in input order only
to resolved lines and are always contiguous `1, 2, …`; in the app the
same holds provided no ambiguous line is skipped or resolved to a
duplicate — an ambiguous line consumes its reserved ordinal even when it
is later skipped, leaving a gap (see the counterexample). -/
theorem c6_amended_ordinal_assignment {α : Type} (outs : List (Option α))
    (ls : List AppLine) :
    ((cliEntries outs).map Prod.snd =
      List.range' 1 ((cliEntries outs).length)) ∧
    ((∀ l ∈ ls, ∀ p d, l = AppLine.ambiguous p d → p = true ∧ d = false) →
      appOrdinals ls = List.range' 1 (appOrdinals ls).length) :=
  ⟨cliProcess_ordinals outs 1, fun hok => appProcess_ordinals ls 1 hok⟩

/-- C6 witness: the amended ordinal guarantees instantiated on concrete
outcome lists. -/
theorem c6_amended_ordinal_assignment_witness :
    ((cliEntries [some 10, none, some 20, none, some 30]).map Prod.snd =
      List.range' 1
        ((cliEntries [some 10, none, some 20, none, some 30]).length)) ∧
    (appOrdinals [AppLine.autoResolved, AppLine.autoRejected,
        AppLine.ambiguous true false, AppLine.autoResolved] =
      List.range' 1
        (appOrdinals [AppLine.autoResolved, AppLine.autoRejected,
          AppLine.ambiguous true false, AppLine.autoResolved]).length) :=
  ⟨(c6_amended_ordinal_assignment [some 10, none, some 20, none, some 30]
      []).1,
   (c6_amended_ordinal_assignment ([] : List (Option Nat))
      [AppLine.autoResolved, AppLine.autoRejected,
       AppLine.ambiguous true false, AppLine.autoResolved]).2
      (by decide)⟩

/-- C2 counterexample: `_apply_highlight` is not idempotent.  For the
markdown pair the open and close tags are both `**`, so the
"already inside our tag" count check always compares equal counts and a
second application re-wraps a single already-highlighted occurrence; for
the HTML pair the check inspects only the segment since the previous
match end, so a second occurrence is re-wrapped on the second pass.  The
targets (`"Doe"`) do not occur as literal tagged text in the inputs. -/
theorem c2_counterexample_double_wrap :
    apply_highlight_md (toCh "Doe") [toCh "Doe"] = toCh "**Doe**" ∧
    apply_highlight_md (apply_highlight_md (toCh "Doe") [toCh "Doe"])
        [toCh "Doe"] = toCh "****Doe****" ∧
    apply_highlight_md (apply_highlight_md (toCh "Doe") [toCh "Doe"])
        [toCh "Doe"] ≠ apply_highlight_md (toCh "Doe") [toCh "Doe"] ∧
    apply_highlight_html
        (apply_highlight_html (toCh "x Doe y Doe") [toCh "Doe"])
        [toCh "Doe"] ≠
      apply_highlight_html (toCh "x Doe y Doe") [toCh "Doe"] := by
  decide

theorem lowN_letter {c : Char} (h : isAsciiLetter c = true) :
    97 ≤ lowN c ∧ lowN c ≤ 122 := by
  simp only [isAsciiLetter, Bool.or_eq_true, Bool.and_eq_true,
    decide_eq_true_eq] at h
  unfold lowN
  split <;> rename_i hc <;>
    simp only [Bool.and_eq_true, decide_eq_true_eq] at * <;> omega

theorem lowN_not_letter {c : Char} (h : isAsciiLetter c = false) :
    lowN c = c.toNat ∧ ¬(97 ≤ lowN c ∧ lowN c ≤ 122) := by
  have h' : ¬((65 ≤ c.toNat ∧ c.toNat ≤ 90) ∨ (97 ≤ c.toNat ∧ c.toNat ≤ 122)) := by
    intro hor
    have : isAsciiLetter c = true := by
      simp only [isAsciiLetter, Bool.or_eq_true, Bool.and_eq_true,
        decide_eq_true_eq]
      exact hor
    rw [h] at this
    exact Bool.false_ne_true this
  have hcond : (decide (65 ≤ c.toNat) && decide (c.toNat ≤ 90)) = false := by
    by_contra hb
    have := eq_true_of_ne_false hb
    simp only [Bool.and_eq_true, decide_eq_true_eq] at this
    exact h' (Or.inl this)
  constructor
  · unfold lowN
    rw [hcond]
    simp
  · unfold lowN
    rw [hcond]
    simp only [Bool.false_eq_true, if_false]
    intro hrange
    exact h' (Or.inr hrange)

theorem lowN_ne {a c : Char} (ha : isAsciiLetter a = true)
    (hc : isAsciiLetter c = false) : lowN a ≠ lowN c := by
  have h1 := lowN_letter ha
  have h2 := lowN_not_letter hc
  intro he
  exact h2.2 (he ▸ h1)

theorem letter_toNat {c : Char} (h : isAsciiLetter c = true) :
    (65 ≤ c.toNat ∧ c.toNat ≤ 90) ∨ (97 ≤ c.toNat ∧ c.toNat ≤ 122) := by
  simpa only [isAsciiLetter, Bool.or_eq_true, Bool.and_eq_true,
    decide_eq_true_eq] using h

theorem ciLeads_head_false {t0 c : Char} (ts s : List Char)
    (h : lowN t0 ≠ lowN c) : ciLeads (t0 :: ts) (c :: s) = false := by
  simp [ciLeads, h]

theorem ciLeads_letter_head_false {t0 c : Char} (ts s : List Char)
    (ht : isAsciiLetter t0 = true) (hc : isAsciiLetter c = false) :
    ciLeads (t0 :: ts) (c :: s) = false :=
  ciLeads_head_false ts s (lowN_ne ht hc)

theorem ciLeads_self_append (t x : List Char) : ciLeads t (t ++ x) = true := by
  induction t with
  | nil => rfl
  | cons c cs ih => simp [ciLeads, ih]

/-! ### Unfolding and fuel lemmas for the highlight scanner -/

theorem hlF_zero (t op cl : List Char) (prev : Option Char)
    (acc text : List Char) :
    hlF t op cl 0 prev acc text = acc.reverse ++ text := rfl

theorem hlF_nil (t op cl : List Char) (f : Nat) (prev : Option Char)
    (acc : List Char) :
    hlF t op cl (f + 1) prev acc [] = acc.reverse := rfl

theorem hlF_succ (t op cl : List Char) (f : Nat) (prev : Option Char)
    (acc : List Char) (c : Char) (cs : List Char) :
    hlF t op cl (f + 1) prev acc (c :: cs) =
      if !t.isEmpty && okBefore prev && ciLeads t (c :: cs) &&
          okAfter ((c :: cs).drop t.length).head? then
        (if countOcc cl acc.reverse < countOcc op acc.reverse then
          acc.reverse ++ (c :: cs).take t.length ++
            hlF t op cl f ((c :: cs).take t.length).getLast? []
              ((c :: cs).drop t.length)
        else
          acc.reverse ++ op ++ (c :: cs).take t.length ++ cl ++
            hlF t op cl f ((c :: cs).take t.length).getLast? []
              ((c :: cs).drop t.length))
      else hlF t op cl f (some c) (c :: acc) cs := rfl

theorem hlF_step_skip (t op cl : List Char) (f : Nat) (prev : Option Char)
    (acc : List Char) (c : Char) (cs : List Char)
    (h : (!t.isEmpty && okBefore prev && ciLeads t (c :: cs) &&
      okAfter ((c :: cs).drop t.length).head?) = false) :
    hlF t op cl (f + 1) prev acc (c :: cs) =
      hlF t op cl f (some c) (c :: acc) cs := by
  rw [hlF_succ, h]
  simp

theorem hlF_fuel (t op cl : List Char) :
    ∀ (f g : Nat) (prev : Option Char) (acc text : List Char),
      text.length ≤ f → text.length ≤ g →
      hlF t op cl f prev acc text = hlF t op cl g prev acc text := by
  intro f
  induction f with
  | zero =>
    intro g prev acc text hf _
    have htext : text = [] := List.eq_nil_of_length_eq_zero (Nat.le_zero.mp hf)
    subst htext
    cases g with
    | zero => rfl
    | succ g' => simp [hlF_zero, hlF_nil]
  | succ f' ih =>
    intro g prev acc text _ hg
    cases text with
    | nil =>
      cases g with
      | zero => simp [hlF_zero, hlF_nil]
      | succ g' => rfl
    | cons c cs =>
      rename_i hf
      cases g with
      | zero => exact absurd hg (by simp)
      | succ g' =>
        rw [hlF_succ, hlF_succ]
        by_cases hcond : (!t.isEmpty && okBefore prev && ciLeads t (c :: cs) &&
            okAfter ((c :: cs).drop t.length).head?) = true
        · rw [if_pos hcond, if_pos hcond]
          have htne : t.length ≠ 0 := by
            intro h0
            have : t = [] := List.eq_nil_of_length_eq_zero h0
            subst this
            simp at hcond
          have hrest : ((c :: cs).drop t.length).length ≤ f' := by
            simp only [List.length_drop, List.length_cons]
            simp only [List.length_cons] at hf
            omega
          have hrest' : ((c :: cs).drop t.length).length ≤ g' := by
            simp only [List.length_drop, List.length_cons]
            simp only [List.length_cons] at hg
            omega
          rw [ih g' ((c :: cs).take t.length).getLast? []
            ((c :: cs).drop t.length) hrest hrest']
        · rw [if_neg hcond, if_neg hcond]
          have h1 : cs.length ≤ f' := by
            simp only [List.length_cons] at hf
            omega
          have h2 : cs.length ≤ g' := by
            simp only [List.length_cons] at hg
            omega
          exact ih g' (some c) (c :: acc) cs h1 h2

theorem prevAfter_nil (prev : Option Char) : prevAfter [] prev = prev := rfl

theorem prevAfter_cons (c : Char) (s : List Char) (prev : Option Char) :
    prevAfter (c :: s) prev = prevAfter s (some c) := by
  cases s with
  | nil => rfl
  | cons d s' =>
    simp only [prevAfter, List.getLast?_cons_cons]
    cases hl : (d :: s').getLast? with
    | none =>
      exact absurd hl (by simp [List.getLast?_eq_none_iff])
    | some x => rfl

theorem okBefore_letter {p : Char} (h : isAsciiLetter p = true) :
    okBefore (some p) = false := by
  simp [okBefore, h]

theorem okBefore_mem {pre : List Char}
    (hpre : ∀ c ∈ pre, isAsciiLetter c = false ∧ c.toNat ≠ 46 ∧ c.toNat ≠ 39)
    (prev : Option Char) (hprev : prev = none ∨ ∃ c ∈ pre, prev = some c) :
    okBefore prev = true := by
  rcases hprev with h | ⟨c, hc, h⟩
  · subst h; rfl
  · subst h
    obtain ⟨h1, h2, h3⟩ := hpre c hc
    simp [okBefore, h1, h2, h3]

theorem prevAfter_cases (seg : List Char) (prev : Option Char) :
    prevAfter seg prev = prev ∨ ∃ c ∈ seg, prevAfter seg prev = some c := by
  unfold prevAfter
  cases hl : seg.getLast? with
  | none => exact Or.inl rfl
  | some c => exact Or.inr ⟨c, List.mem_of_mem_getLast? (by rw [hl]; rfl), rfl⟩

/-- Scanning a letter-free segment with an all-letter target makes no
match: every character is moved into the accumulator. -/
theorem skipNonLetters (t op cl : List Char) {t0 : Char} {tt : List Char}
    (htdef : t = t0 :: tt) (ht0 : isAsciiLetter t0 = true) :
    ∀ (seg : List Char), (∀ c ∈ seg, isAsciiLetter c = false) →
    ∀ (f : Nat) (prev : Option Char) (acc tail : List Char),
      (seg ++ tail).length ≤ f →
      hlF t op cl f prev acc (seg ++ tail) =
        hlF t op cl tail.length (prevAfter seg prev) (seg.reverse ++ acc)
          tail := by
  intro seg
  induction seg with
  | nil =>
    intro _ f prev acc tail hf
    simpa using hlF_fuel t op cl f tail.length prev acc tail (by simpa using hf)
      (Nat.le_refl _)
  | cons c seg' ih =>
    intro hseg f prev acc tail hf
    have hc : isAsciiLetter c = false := hseg c (List.mem_cons_self _ _)
    have hrest : ∀ x ∈ seg', isAsciiLetter x = false :=
      fun x hx => hseg x (List.mem_cons_of_mem _ hx)
    cases f with
    | zero => exact absurd hf (by simp)
    | succ f' =>
      have hstep := hlF_step_skip t op cl f' prev acc c (seg' ++ tail)
        (by rw [htdef, ciLeads_letter_head_false tt (seg' ++ tail) ht0 hc];
            simp)
      rw [List.cons_append, hstep, ih hrest f' (some c) (c :: acc) tail
        (by simp only [List.length_append, List.length_cons] at hf ⊢; omega)]
      rw [prevAfter_cons]
      simp [List.append_assoc]

/-- Scanning an all-letter segment whose previous character is a letter
makes no match (the left word-boundary fails at every position). -/
theorem skipLetterRun (t op cl : List Char) :
    ∀ (seg : List Char), (∀ c ∈ seg, isAsciiLetter c = true) →
    ∀ (f : Nat) (p : Char), isAsciiLetter p = true →
    ∀ (acc tail : List Char), (seg ++ tail).length ≤ f →
      hlF t op cl f (some p) acc (seg ++ tail) =
        hlF t op cl tail.length (prevAfter seg (some p)) (seg.reverse ++ acc)
          tail := by
  intro seg
  induction seg with
  | nil =>
    intro _ f p _ acc tail hf
    simpa using hlF_fuel t op cl f tail.length (some p) acc tail
      (by simpa using hf) (Nat.le_refl _)
  | cons c seg' ih =>
    intro hseg f p hp acc tail hf
    have hc : isAsciiLetter c = true := hseg c (List.mem_cons_self _ _)
    have hrest : ∀ x ∈ seg', isAsciiLetter x = true :=
      fun x hx => hseg x (List.mem_cons_of_mem _ hx)
    cases f with
    | zero => exact absurd hf (by simp)
    | succ f' =>
      have hstep := hlF_step_skip t op cl f' (some p) acc c (seg' ++ tail)
        (by rw [okBefore_letter hp]; simp)
      rw [List.cons_append, hstep, ih hrest f' c hc (c :: acc) tail
        (by simp only [List.length_append, List.length_cons] at hf ⊢; omega)]
      rw [prevAfter_cons]
      simp [List.append_assoc]

/-- Scanning a letter-free remainder with an all-letter target flushes
the accumulator unchanged. -/
theorem skipToEnd (t op cl : List Char) {t0 : Char} {tt : List Char}
    (htdef : t = t0 :: tt) (ht0 : isAsciiLetter t0 = true) :
    ∀ (post : List Char), (∀ c ∈ post, isAsciiLetter c = false) →
    ∀ (f : Nat) (prev : Option Char) (acc : List Char), post.length ≤ f →
      hlF t op cl f prev acc post = acc.reverse ++ post := by
  intro post
  induction post with
  | nil =>
    intro _ f prev acc _
    cases f with
    | zero => rfl
    | succ f' => simp [hlF_nil]
  | cons c cs ih =>
    intro hpost f prev acc hf
    have hc : isAsciiLetter c = false := hpost c (List.mem_cons_self _ _)
    cases f with
    | zero => exact absurd hf (by simp)
    | succ f' =>
      have hstep := hlF_step_skip t op cl f' prev acc c cs
        (by rw [htdef, ciLeads_letter_head_false tt cs ht0 hc]; simp)
      rw [hstep, ih (fun x hx => hpost x (List.mem_cons_of_mem _ hx)) f'
        (some c) (c :: acc) (by simp only [List.length_cons] at hf; omega)]
      simp

/-- An all-letter target that is not a case variant of the tag word `w`
cannot match at the start of `w` inside a tag `<w>` / `</w>`: either the
literal comparison fails before the closing `>`, or the match ends inside
the letter run and the right word-boundary fails. -/
theorem tagWordFail :
    ∀ (t : List Char), t ≠ [] → (∀ c ∈ t, isAsciiLetter c = true) →
    ∀ (w tail : List Char), (∀ c ∈ w, isAsciiLetter c = true) →
      lowNs t ≠ lowNs w →
      (ciLeads t (w ++ '>' :: tail) &&
        okAfter ((w ++ '>' :: tail).drop t.length).head?) = false := by
  intro t
  induction t with
  | nil => intro h; exact absurd rfl h
  | cons t0 tt ih =>
    intro _ hlet w tail hw hne
    have ht0 : isAsciiLetter t0 = true := hlet t0 (List.mem_cons_self _ _)
    cases w with
    | nil =>
      rw [List.nil_append,
        ciLeads_letter_head_false tt tail ht0 (by decide)]
      rfl
    | cons w0 w' =>
      have hw0 : isAsciiLetter w0 = true := hw w0 (List.mem_cons_self _ _)
      have hw' : ∀ c ∈ w', isAsciiLetter c = true :=
        fun c hc => hw c (List.mem_cons_of_mem _ hc)
      by_cases heq : lowN t0 = lowN w0
      · cases tt with
        | nil =>
          cases w' with
          | nil =>
            exact absurd (by simp [lowNs, heq]) hne
          | cons w1 w'' =>
            have hw1 : isAsciiLetter w1 = true :=
              hw' w1 (List.mem_cons_self _ _)
            simp [ciLeads, okAfter, heq, hw1]
        | cons t1 tt' =>
          have hlet' : ∀ c ∈ t1 :: tt', isAsciiLetter c = true :=
            fun c hc => hlet c (List.mem_cons_of_mem _ hc)
          have hne' : lowNs (t1 :: tt') ≠ lowNs w' := by
            intro he
            apply hne
            simp [lowNs, heq]
            simpa [lowNs] using he
          have hih := ih (by simp) hlet' w' tail hw' hne'
          simp only [List.cons_append, ciLeads, heq, beq_self_eq_true,
            Bool.true_and, List.length_cons, List.drop_succ_cons]
          simp only [List.length_cons] at hih
          exact hih
      · rw [List.cons_append, ciLeads_head_false tt (w' ++ '>' :: tail) heq]
        rfl

/-- The scanner step at an actual match of the target `t`: the
occurrence is wrapped unless the segment scanned since the last match
contains more open than close tags. -/
theorem hlF_match (t op cl : List Char) {t0 : Char} {tt : List Char}
    (htdef : t = t0 :: tt) (f : Nat) (prev : Option Char)
    (acc tail : List Char) (hb : okBefore prev = true)
    (ha : okAfter tail.head? = true) (hf : (t ++ tail).length ≤ f) :
    hlF t op cl f prev acc (t ++ tail) =
      if countOcc cl acc.reverse < countOcc op acc.reverse then
        acc.reverse ++ t ++ hlF t op cl tail.length t.getLast? [] tail
      else
        acc.reverse ++ op ++ t ++ cl ++
          hlF t op cl tail.length t.getLast? [] tail := by
  subst htdef
  cases f with
  | zero => exact absurd hf (by simp)
  | succ f' =>
    have hcond : (!(t0 :: tt).isEmpty && okBefore prev &&
        ciLeads (t0 :: tt) (t0 :: (tt ++ tail)) &&
        okAfter ((t0 :: (tt ++ tail)).drop (t0 :: tt).length).head?) =
          true := by
      have h1 : ciLeads (t0 :: tt) (t0 :: (tt ++ tail)) = true := by
        have := ciLeads_self_append (t0 :: tt) tail
        simpa using this
      have h2 : ((t0 :: (tt ++ tail)).drop (t0 :: tt).length) = tail := by
        have h := List.drop_left (t0 :: tt) tail
        simp only [List.cons_append] at h
        exact h
      rw [h1, h2]
      simp [hb, ha]
    have htake : ((t0 :: (tt ++ tail)).take (t0 :: tt).length) = t0 :: tt := by
      have h := List.take_left (t0 :: tt) tail
      simp only [List.cons_append] at h
      exact h
    have hdrop : ((t0 :: (tt ++ tail)).drop (t0 :: tt).length) = tail := by
      have h := List.drop_left (t0 :: tt) tail
      simp only [List.cons_append] at h
      exact h
    have hfl : tail.length ≤ f' := by
      simp only [List.length_append, List.length_cons] at hf
      omega
    rw [List.cons_append, hlF_succ, hcond, if_pos rfl, htake, hdrop,
      hlF_fuel (t0 :: tt) op cl f' tail.length ((t0 :: tt).getLast?) [] tail
        hfl (Nat.le_refl _)]

/-! ### Tag-occurrence counting -/

theorem leads_refl : ∀ (p : List Char), leads p p = true := by
  intro p
  induction p with
  | nil => rfl
  | cons c cs ih => simp [leads, ih]

theorem countOccF_zero_of_no_lead (pat : List Char) :
    ∀ (f : Nat) (s : List Char), (∀ n, leads pat (s.drop n) = false) →
      countOccF pat f s = 0 := by
  intro f
  induction f with
  | zero => intro s _; rfl
  | succ f' ih =>
    intro s h
    cases s with
    | nil => rfl
    | cons c cs =>
      have h0 : leads pat (c :: cs) = false := by simpa using h 0
      have : (!pat.isEmpty && leads pat (c :: cs)) = false := by
        rw [h0]; simp
      show (if !pat.isEmpty && leads pat (c :: cs) then _ else _) = 0
      rw [this]
      simp only [Bool.false_eq_true, if_false]
      exact ih cs (fun n => by simpa [List.drop_succ_cons] using h (n + 1))

theorem leads_cons_head_false {p c : Char} (r s : List Char)
    (h : p.toNat ≠ c.toNat) : leads (p :: r) (c :: s) = false := by
  simp only [leads]
  rw [show (p.toNat == c.toNat) = false by
    simp only [beq_eq_false_iff_ne, ne_eq]; exact h]
  simp

theorem leads_open_drop_false {r s : List Char}
    (hs : ∀ c ∈ s, c.toNat ≠ 60) :
    ∀ n, leads ('<' :: r) (s.drop n) = false := by
  intro n
  cases hd : s.drop n with
  | nil => rfl
  | cons c cs =>
    have hc : c ∈ s := List.drop_subset n s (hd ▸ List.mem_cons_self c cs)
    exact leads_cons_head_false r cs (by
      rw [show '<'.toNat = 60 from rfl]
      exact fun he => (hs c hc) he.symm)

theorem leads_cons (p c : Char) (ps cs : List Char) :
    leads (p :: ps) (c :: cs) = ((p.toNat == c.toNat) && leads ps cs) := rfl

theorem countOcc_no_open {r s : List Char} (hs : ∀ c ∈ s, c.toNat ≠ 60) :
    countOcc ('<' :: r) s = 0 :=
  countOccF_zero_of_no_lead _ _ _ (leads_open_drop_false hs)

theorem countOccF_succ (pat : List Char) (f : Nat) (c : Char)
    (cs : List Char) :
    countOccF pat (f + 1) (c :: cs) =
      if !pat.isEmpty && leads pat (c :: cs) then
        1 + countOccF pat f ((c :: cs).drop pat.length)
      else countOccF pat f cs := rfl

/-- The open tag `'<' :: (w ++ ['>'])` occurs exactly once in
`pre ++ '<' :: (w ++ ['>'])` when `pre` contains no `<`. -/
theorem countOcc_open_once (w : List Char) :
    ∀ (f : Nat) (pre : List Char), (∀ c ∈ pre, c.toNat ≠ 60) →
      (pre ++ ('<' :: (w ++ ['>']))).length ≤ f →
      countOccF ('<' :: (w ++ ['>'])) f (pre ++ ('<' :: (w ++ ['>']))) = 1 := by
  intro f
  induction f with
  | zero => intro pre _ hf; exact absurd hf (by simp)
  | succ f' ih =>
    intro pre hpre hf
    cases pre with
    | nil =>
      rw [List.nil_append, countOccF_succ, leads_refl]
      simp only [List.isEmpty_cons, Bool.not_false, Bool.and_true, if_true,
        List.drop_length]
      cases f' <;> rfl
    | cons c pre' =>
      have hc : c.toNat ≠ 60 := hpre c (List.mem_cons_self _ _)
      have hlead : leads ('<' :: (w ++ ['>']))
          (c :: (pre' ++ ('<' :: (w ++ ['>'])))) = false :=
        leads_cons_head_false _ _ (by
          rw [show '<'.toNat = 60 from rfl]
          exact fun he => hc he.symm)
      rw [List.cons_append, countOccF_succ, hlead]
      simp only [Bool.and_false, Bool.false_eq_true, if_false]
      exact ih pre' (fun x hx => hpre x (List.mem_cons_of_mem _ hx))
        (by simp only [List.length_append, List.length_cons] at hf ⊢; omega)

/-- The close tag `</w>` does not occur in `pre ++ <w>` when `pre`
contains no `<` and `w` is a nonempty letter run. -/
theorem countOcc_close_zero {w0 : Char} (w' : List Char)
    (hw0 : isAsciiLetter w0 = true)
    (hw' : ∀ c ∈ w', isAsciiLetter c = true)
    (pre : List Char) (hpre : ∀ c ∈ pre, c.toNat ≠ 60) :
    countOcc ('<' :: ('/' :: (w0 :: (w' ++ ['>']))))
      (pre ++ ('<' :: (w0 :: (w' ++ ['>'])))) = 0 := by
  apply countOccF_zero_of_no_lead
  have hno60 : ∀ c ∈ w0 :: (w' ++ ['>']), c.toNat ≠ 60 := by
    intro c hc
    rcases List.mem_cons.mp hc with rfl | hc
    · rcases letter_toNat hw0 with h | h <;> omega
    · rcases List.mem_append.mp hc with hc | hc
      · rcases letter_toNat (hw' c hc) with h | h <;> omega
      · simp only [List.mem_singleton] at hc
        subst hc
        decide
  have h47 : ('/'.toNat == w0.toNat) = false := by
    simp only [beq_eq_false_iff_ne, ne_eq, show '/'.toNat = 47 from rfl]
    intro he
    rcases letter_toNat hw0 with h | h <;> omega
  have hop : ∀ m, leads ('<' :: ('/' :: (w0 :: (w' ++ ['>']))))
      (('<' :: (w0 :: (w' ++ ['>']))).drop m) = false := by
    intro m
    cases m with
    | zero =>
      rw [List.drop_zero, leads_cons, leads_cons, h47]
      simp
    | succ m' =>
      rw [List.drop_succ_cons]
      exact leads_open_drop_false (r := '/' :: (w0 :: (w' ++ ['>'])))
        hno60 m'
  intro n
  rcases Nat.lt_or_ge n pre.length with hn | hn
  · cases hd : (pre ++ ('<' :: (w0 :: (w' ++ ['>'])))).drop n with
    | nil => rfl
    | cons c cs =>
      have hcmem : c ∈ pre := by
        have heq : (pre ++ ('<' :: (w0 :: (w' ++ ['>'])))).drop n =
            pre.drop n ++ ('<' :: (w0 :: (w' ++ ['>']))) :=
          List.drop_append_of_le_length (Nat.le_of_lt hn)
        rw [heq] at hd
        cases hpd : pre.drop n with
        | nil =>
          have hlen : (pre.drop n).length = 0 := by rw [hpd]; rfl
          simp only [List.length_drop] at hlen
          omega
        | cons d ds =>
          rw [hpd] at hd
          simp only [List.cons_append, List.cons.injEq] at hd
          exact hd.1 ▸ List.drop_subset n pre (hpd ▸ List.mem_cons_self d ds)
      exact leads_cons_head_false _ _ (by
        rw [show '<'.toNat = 60 from rfl]
        exact fun he => (hpre c hcmem) he.symm)
  · have heq : (pre ++ ('<' :: (w0 :: (w' ++ ['>'])))).drop n =
        ('<' :: (w0 :: (w' ++ ['>']))).drop (n - pre.length) := by
      rw [List.drop_append_eq_append_drop, List.drop_eq_nil_of_le hn]
      simp
    rw [heq]
    exact hop (n - pre.length)

theorem okAfter_nonletter {post : List Char}
    (h : ∀ c ∈ post, isAsciiLetter c = false) : okAfter post.head? = true := by
  cases post with
  | nil => rfl
  | cons c cs => simp [okAfter, h c (List.mem_cons_self _ _)]

/-- Scanning `w0 :: (w' ++ ('>' :: tail))` — the `w>` part of a tag —
makes no match when the target is an all-letter word that is not a case
variant of `w0 :: w'`. -/
theorem scanAngleWord (t op cl : List Char) {t0 : Char} {tt : List Char}
    (htdef : t = t0 :: tt) (hlet : ∀ c ∈ t, isAsciiLetter c = true)
    {w0 : Char} {w' : List Char} (hw0 : isAsciiLetter w0 = true)
    (hw' : ∀ c ∈ w', isAsciiLetter c = true)
    (hne : lowNs t ≠ lowNs (w0 :: w')) :
    ∀ (f : Nat) (prev : Option Char) (acc tail : List Char),
      (w0 :: (w' ++ ('>' :: tail))).length ≤ f →
      hlF t op cl f prev acc (w0 :: (w' ++ ('>' :: tail))) =
        hlF t op cl tail.length (some '>')
          ('>' :: (w'.reverse ++ (w0 :: acc))) tail := by
  intro f prev acc tail hf
  have ht0 : isAsciiLetter t0 = true :=
    hlet t0 (by rw [htdef]; exact List.mem_cons_self _ _)
  cases f with
  | zero => exact absurd hf (by simp)
  | succ f1 =>
    have htwf := tagWordFail t (by rw [htdef]; simp) hlet (w0 :: w') tail
      (fun c hc => by
        rcases List.mem_cons.mp hc with rfl | hc
        · exact hw0
        · exact hw' c hc) hne
    rw [List.cons_append] at htwf
    have hcond : (!t.isEmpty && okBefore prev &&
        ciLeads t (w0 :: (w' ++ ('>' :: tail))) &&
        okAfter ((w0 :: (w' ++ ('>' :: tail))).drop t.length).head?) =
          false := by
      rw [Bool.and_assoc, htwf, Bool.and_false]
    rw [hlF_step_skip t op cl f1 prev acc w0 (w' ++ ('>' :: tail)) hcond]
    rw [skipLetterRun t op cl w' hw' f1 w0 hw0 (w0 :: acc) ('>' :: tail)
      (by simp only [List.length_cons] at hf; omega)]
    have hgt : ciLeads t ('>' :: tail) = false := by
      rw [htdef]
      exact ciLeads_letter_head_false _ _ ht0 (by decide)
    have hcond2 : (!t.isEmpty && okBefore (prevAfter w' (some w0)) &&
        ciLeads t ('>' :: tail) &&
        okAfter (('>' :: tail).drop t.length).head?) = false := by
      rw [hgt]
      simp
    rw [show ('>' :: tail).length = tail.length + 1 from rfl]
    rw [hlF_step_skip t op cl tail.length (prevAfter w' (some w0))
      (w'.reverse ++ (w0 :: acc)) '>' tail hcond2]

/-- First application on a single-occurrence text: the occurrence is
wrapped in the open/close tags. -/
theorem highlight_pass_one (t : List Char) {t0 : Char} {tt : List Char}
    (htdef : t = t0 :: tt) (hlet : ∀ c ∈ t, isAsciiLetter c = true)
    {w0 : Char} {w' : List Char} (_hw0 : isAsciiLetter w0 = true)
    (_hw' : ∀ c ∈ w', isAsciiLetter c = true)
    (pre post : List Char)
    (hpre : ∀ c ∈ pre, isAsciiLetter c = false ∧ c.toNat ≠ 46 ∧
      c.toNat ≠ 39 ∧ c.toNat ≠ 60)
    (hpost : ∀ c ∈ post, isAsciiLetter c = false) :
    applyOneTarget (pre ++ (t ++ post)) t
        ('<' :: ((w0 :: w') ++ ['>']))
        ('<' :: ('/' :: ((w0 :: w') ++ ['>']))) =
      pre ++ (('<' :: ((w0 :: w') ++ ['>'])) ++
        (t ++ (('<' :: ('/' :: ((w0 :: w') ++ ['>']))) ++ post))) := by
  have ht0 : isAsciiLetter t0 = true :=
    hlet t0 (by rw [htdef]; exact List.mem_cons_self _ _)
  set op := '<' :: ((w0 :: w') ++ ['>']) with hop
  set cl := '<' :: ('/' :: ((w0 :: w') ++ ['>'])) with hcl
  unfold applyOneTarget
  rw [skipNonLetters t op cl htdef ht0 pre
    (fun c hc => (hpre c hc).1) (pre ++ (t ++ post)).length none [] (t ++ post)
    (by simp)]
  rw [List.append_nil]
  rw [hlF_match t op cl htdef (t ++ post).length (prevAfter pre none)
    pre.reverse post
    (by
      rcases prevAfter_cases pre none with h | ⟨c, hc, h⟩
      · rw [h]; rfl
      · rw [h]
        obtain ⟨h1, h2, h3, _⟩ := hpre c hc
        simp [okBefore, h1, h2, h3])
    (okAfter_nonletter hpost) (Nat.le_refl _)]
  have hz1 : countOcc op pre.reverse.reverse = 0 := by
    rw [List.reverse_reverse, hop]
    exact countOcc_no_open (fun c hc => (hpre c hc).2.2.2)
  have hz2 : countOcc cl pre.reverse.reverse = 0 := by
    rw [List.reverse_reverse, hcl]
    exact countOcc_no_open (fun c hc => (hpre c hc).2.2.2)
  rw [hz1, hz2, if_neg (Nat.lt_irrefl 0)]
  rw [skipToEnd t op cl htdef ht0 post hpost post.length t.getLast? []
    (Nat.le_refl _)]
  simp

/-- Second application on the once-highlighted text: the single
occurrence now sits inside an unclosed open tag (one `<w>` and no
`</w>` precede it), so it is left unwrapped and the text is unchanged. -/
theorem highlight_pass_two (t : List Char) {t0 : Char} {tt : List Char}
    (htdef : t = t0 :: tt) (hlet : ∀ c ∈ t, isAsciiLetter c = true)
    {w0 : Char} {w' : List Char} (hw0 : isAsciiLetter w0 = true)
    (hw' : ∀ c ∈ w', isAsciiLetter c = true)
    (hne : lowNs t ≠ lowNs (w0 :: w'))
    (pre post : List Char)
    (hpre : ∀ c ∈ pre, isAsciiLetter c = false ∧ c.toNat ≠ 46 ∧
      c.toNat ≠ 39 ∧ c.toNat ≠ 60)
    (hpost : ∀ c ∈ post, isAsciiLetter c = false) :
    applyOneTarget
        (pre ++ (('<' :: ((w0 :: w') ++ ['>'])) ++
          (t ++ (('<' :: ('/' :: ((w0 :: w') ++ ['>']))) ++ post)))) t
        ('<' :: ((w0 :: w') ++ ['>']))
        ('<' :: ('/' :: ((w0 :: w') ++ ['>']))) =
      pre ++ (('<' :: ((w0 :: w') ++ ['>'])) ++
        (t ++ (('<' :: ('/' :: ((w0 :: w') ++ ['>']))) ++ post))) := by
  have ht0 : isAsciiLetter t0 = true :=
    hlet t0 (by rw [htdef]; exact List.mem_cons_self _ _)
  set op := '<' :: ((w0 :: w') ++ ['>']) with hop
  set cl := '<' :: ('/' :: ((w0 :: w') ++ ['>'])) with hcl
  unfold applyOneTarget
  rw [skipNonLetters t op cl htdef ht0 pre
    (fun c hc => (hpre c hc).1)
    (pre ++ (op ++ (t ++ (cl ++ post)))).length none []
    (op ++ (t ++ (cl ++ post))) (by simp)]
  rw [List.append_nil]
  -- scan past the open tag: one step for `<`, then the `w>` lemma
  have hlt : ciLeads t ('<' :: ((w0 :: w') ++ ('>' :: (t ++ (cl ++ post))))) =
      false := by
    rw [htdef]
    exact ciLeads_letter_head_false _ _ ht0 (by decide)
  have hopstep : (op ++ (t ++ (cl ++ post))) =
      '<' :: ((w0 :: w') ++ ('>' :: (t ++ (cl ++ post)))) := by
    rw [hop]
    simp [List.append_assoc]
  rw [hopstep]
  rw [show ('<' :: ((w0 :: w') ++ ('>' :: (t ++ (cl ++ post))))).length =
    ((w0 :: w') ++ ('>' :: (t ++ (cl ++ post)))).length + 1 from rfl]
  rw [hlF_step_skip t op cl _ (prevAfter pre none) pre.reverse '<'
    ((w0 :: w') ++ ('>' :: (t ++ (cl ++ post))))
    (by rw [Bool.and_assoc, Bool.and_assoc]; rw [hlt]; simp)]
  rw [List.cons_append]
  rw [scanAngleWord t op cl htdef hlet hw0 hw' hne _ (some '<')
    ('<' :: pre.reverse) (t ++ (cl ++ post)) (by simp)]
  -- the match at `t`: the segment before it holds one open and no close
  rw [hlF_match t op cl htdef (t ++ (cl ++ post)).length (some '>')
    ('>' :: (w'.reverse ++ (w0 :: ('<' :: pre.reverse)))) (cl ++ post)
    (by decide)
    (by rw [hcl, List.cons_append]; rfl) (Nat.le_refl _)]
  have hacc : ('>' :: (w'.reverse ++ (w0 :: ('<' :: pre.reverse)))).reverse =
      pre ++ ('<' :: (w0 :: (w' ++ ['>']))) := by
    simp [List.append_assoc]
  have hone : countOcc op
      (('>' :: (w'.reverse ++ (w0 :: ('<' :: pre.reverse)))).reverse) = 1 := by
    rw [hacc, hop]
    have := countOcc_open_once (w0 :: w')
      (pre ++ ('<' :: ((w0 :: w') ++ ['>']))).length pre
      (fun c hc => (hpre c hc).2.2.2) (Nat.le_refl _)
    rw [show ('<' :: ((w0 :: w') ++ ['>'])) =
      ('<' :: (w0 :: (w' ++ ['>']))) from by simp] at this
    exact this
  have hzero : countOcc cl
      (('>' :: (w'.reverse ++ (w0 :: ('<' :: pre.reverse)))).reverse) = 0 := by
    rw [hacc, hcl]
    have := countOcc_close_zero w' hw0 hw' pre
      (fun c hc => (hpre c hc).2.2.2)
    rw [show ('<' :: ('/' :: ((w0 :: w') ++ ['>']))) =
      ('<' :: ('/' :: (w0 :: (w' ++ ['>'])))) from by simp]
    exact this
  rw [hone, hzero, if_pos (Nat.zero_lt_one)]
  -- scan past the close tag
  have hclstep : (cl ++ post) =
      '<' :: ('/' :: ((w0 :: w') ++ ('>' :: post))) := by
    rw [hcl]
    simp [List.append_assoc]
  rw [hclstep]
  have hlt2 : ciLeads t ('<' :: ('/' :: ((w0 :: w') ++ ('>' :: post)))) =
      false := by
    rw [htdef]
    exact ciLeads_letter_head_false _ _ ht0 (by decide)
  rw [show ('<' :: ('/' :: ((w0 :: w') ++ ('>' :: post)))).length =
    ('/' :: ((w0 :: w') ++ ('>' :: post))).length + 1 from rfl]
  rw [hlF_step_skip t op cl _ t.getLast? [] '<'
    ('/' :: ((w0 :: w') ++ ('>' :: post)))
    (by rw [Bool.and_assoc, Bool.and_assoc]; rw [hlt2]; simp)]
  have hlt3 : ciLeads t ('/' :: ((w0 :: w') ++ ('>' :: post))) = false := by
    rw [htdef]
    exact ciLeads_letter_head_false _ _ ht0 (by decide)
  rw [show ('/' :: ((w0 :: w') ++ ('>' :: post))).length =
    ((w0 :: w') ++ ('>' :: post)).length + 1 from rfl]
  rw [hlF_step_skip t op cl _ (some '<') ['<'] '/'
    ((w0 :: w') ++ ('>' :: post))
    (by rw [Bool.and_assoc, Bool.and_assoc]; rw [hlt3]; simp)]
  rw [List.cons_append]
  rw [scanAngleWord t op cl htdef hlet hw0 hw' hne _ (some '/')
    ('/' :: ['<']) post (by simp)]
  rw [skipToEnd t op cl htdef ht0 post hpost post.length (some '>')
    ('>' :: (w'.reverse ++ (w0 :: ('/' :: ['<'])))) (Nat.le_refl _)]
  simp [List.append_assoc]

/-- C2 amended: for the HTML and PDF tag pairs — tag pairs of the shape
`<w>` / `</w>` with `w` an alphabetic tag word, which have distinct open
and close tags — `_apply_highlight` is idempotent on single-occurrence
texts: for an all-letter target `t` (not a case variant of the tag word)
occurring exactly once between a letter-free prefix (also free of `.`,
`'` and `<`) and a letter-free suffix, one application wraps the
occurrence and a second application leaves the result unchanged, because
the match then lies after one open tag and no close tag.  (For the
markdown pair, whose open and close tags are both `**`, the unclosed-tag
check compares equal counts and idempotence fails, as does re-wrapping of
later occurrences — see the counterexample.) -/
theorem c2_amended_single_occurrence_idempotent
    (t w pre post : List Char)
    (ht : t ≠ []) (hlet : ∀ c ∈ t, isAsciiLetter c = true)
    (hw : w ≠ []) (hwlet : ∀ c ∈ w, isAsciiLetter c = true)
    (hne : lowNs t ≠ lowNs w)
    (hpre : ∀ c ∈ pre, isAsciiLetter c = false ∧ c.toNat ≠ 46 ∧
      c.toNat ≠ 39 ∧ c.toNat ≠ 60)
    (hpost : ∀ c ∈ post, isAsciiLetter c = false) :
    apply_highlight (pre ++ (t ++ post)) [t]
        ('<' :: (w ++ ['>'])) ('<' :: ('/' :: (w ++ ['>']))) =
      pre ++ (('<' :: (w ++ ['>'])) ++
        (t ++ (('<' :: ('/' :: (w ++ ['>']))) ++ post))) ∧
    apply_highlight
        (apply_highlight (pre ++ (t ++ post)) [t]
          ('<' :: (w ++ ['>'])) ('<' :: ('/' :: (w ++ ['>'])))) [t]
        ('<' :: (w ++ ['>'])) ('<' :: ('/' :: (w ++ ['>']))) =
      apply_highlight (pre ++ (t ++ post)) [t]
        ('<' :: (w ++ ['>'])) ('<' :: ('/' :: (w ++ ['>']))) := by
  cases t with
  | nil => exact absurd rfl ht
  | cons t0 tt =>
    cases w with
    | nil => exact absurd rfl hw
    | cons w0 w' =>
      have hw0 : isAsciiLetter w0 = true := hwlet w0 (List.mem_cons_self _ _)
      have hw'l : ∀ c ∈ w', isAsciiLetter c = true :=
        fun c hc => hwlet c (List.mem_cons_of_mem _ hc)
      have h1 : applyOneTarget (pre ++ ((t0 :: tt) ++ post)) (t0 :: tt)
          ('<' :: ((w0 :: w') ++ ['>']))
          ('<' :: ('/' :: ((w0 :: w') ++ ['>']))) =
          pre ++ (('<' :: ((w0 :: w') ++ ['>'])) ++
            ((t0 :: tt) ++ (('<' :: ('/' :: ((w0 :: w') ++ ['>']))) ++
              post))) :=
        highlight_pass_one (t0 :: tt) rfl hlet hw0 hw'l pre post hpre hpost
      have h2 := highlight_pass_two (t0 :: tt) rfl hlet hw0 hw'l hne
        pre post hpre hpost
      refine ⟨h1, ?_⟩
      show applyOneTarget (applyOneTarget _ _ _ _) _ _ _ = applyOneTarget _ _ _ _
      rw [h1, h2]

/-- C2 witness: the amended idempotence instantiated at the PDF tag pair
(`<b>`/`</b>`) and the HTML tag pair (`<strong>`/`</strong>`) on the
text `1 Doe 2` with target `Doe`. -/
theorem c2_amended_single_occurrence_idempotent_witness :
    apply_highlight
        (apply_highlight (toCh "1 " ++ (toCh "Doe" ++ toCh " 2"))
          [toCh "Doe"] ('<' :: (toCh "b" ++ ['>']))
          ('<' :: ('/' :: (toCh "b" ++ ['>'])))) [toCh "Doe"]
        ('<' :: (toCh "b" ++ ['>'])) ('<' :: ('/' :: (toCh "b" ++ ['>']))) =
      apply_highlight (toCh "1 " ++ (toCh "Doe" ++ toCh " 2")) [toCh "Doe"]
        ('<' :: (toCh "b" ++ ['>'])) ('<' :: ('/' :: (toCh "b" ++ ['>']))) ∧
    apply_highlight
        (apply_highlight (toCh "1 " ++ (toCh "Doe" ++ toCh " 2"))
          [toCh "Doe"] ('<' :: (toCh "strong" ++ ['>']))
          ('<' :: ('/' :: (toCh "strong" ++ ['>'])))) [toCh "Doe"]
        ('<' :: (toCh "strong" ++ ['>']))
        ('<' :: ('/' :: (toCh "strong" ++ ['>']))) =
      apply_highlight (toCh "1 " ++ (toCh "Doe" ++ toCh " 2")) [toCh "Doe"]
        ('<' :: (toCh "strong" ++ ['>']))
        ('<' :: ('/' :: (toCh "strong" ++ ['>']))) :=
  ⟨(c2_amended_single_occurrence_idempotent (toCh "Doe") (toCh "b")
      (toCh "1 ") (toCh " 2") (by decide) (by decide) (by decide) (by decide)
      (by decide) (by decide) (by decide)).2,
   (c2_amended_single_occurrence_idempotent (toCh "Doe") (toCh "strong")
      (toCh "1 ") (toCh " 2") (by decide) (by decide) (by decide) (by decide)
      (by decide) (by decide) (by decide)).2⟩

end Citeformat
